import Mathlib

/-!
Shallow embedding of the EZCollections Manager Blender add-on
(version 2.4, `EZCollections.py`, together with the name-uniquification
loop of version 1.2, `EZCollections Manager(old).py`).

The host scene graph is modelled explicitly: `Obj` is a scene object
(`bpy.data.objects` entry), `Collection` a collection
(`bpy.data.collections` entry, with its `ez_pivot` custom property),
and `Scene` bundles the object list, the collection list, the master
scene collection links, the `ez_solo_backup` scene property, the
selection and the active object / active layer collection.
Floating point vectors are modelled with exact rationals.
Name-keyed host lookups (`bpy.data.objects.get`, ...) become
`List.find?` on the name; Blender keeps those names unique, and
theorems that depend on that carry an explicit `Nodup` hypothesis.
-/

namespace EZ

/-- World-space translation vector with exact rational coordinates. -/
structure Vec3 where
  x : ℚ
  y : ℚ
  z : ℚ
deriving DecidableEq

instance : Add Vec3 := ⟨fun a b => ⟨a.x + b.x, a.y + b.y, a.z + b.z⟩⟩

/-- Zero vector, the start value of `sum(..., Vector())`. -/
def Vec3.zero : Vec3 := ⟨0, 0, 0⟩

/-- Component-wise division by an element count. -/
def Vec3.divNat (v : Vec3) (n : Nat) : Vec3 := ⟨v.x / n, v.y / n, v.z / n⟩

/-- A scene object: name, world translation, parent link and the two
visibility flags the add-on manipulates. -/
structure Obj where
  name : String
  worldLoc : Vec3
  parent : Option String
  hide_viewport : Bool
  hide_render : Bool
deriving DecidableEq

/-- A collection: linked object names, child collection names, the two
visibility flags, the `ez_pivot` custom property and the color tag. -/
structure Collection where
  name : String
  objects : List String
  children : List String
  hide_viewport : Bool
  hide_render : Bool
  ez_pivot : Option String
  color_tag : String
deriving DecidableEq

/-- The scene state visible to the add-on. -/
structure Scene where
  objects : List Obj
  collections : List Collection
  sceneObjects : List String
  sceneChildren : List String
  soloBackup : Option (List (String × Bool))
  selected : List String
  activeObject : Option String
  activeCollection : Option String
deriving DecidableEq

/-- `bpy.data.objects.get(n)`. -/
def findObj (s : Scene) (n : String) : Option Obj :=
  s.objects.find? (fun o => o.name == n)

/-- `bpy.data.collections.get(n)`. -/
def findCol (s : Scene) (n : String) : Option Collection :=
  s.collections.find? (fun c => c.name == n)

/-- `"ez_pivot" in collection`. -/
def is_ez_collection (c : Collection) : Bool := c.ez_pivot.isSome

/-- `context.selected_objects` as objects (selection stores names). -/
def selectedObjects (s : Scene) : List Obj :=
  s.selected.filterMap (findObj s)

/-- Update every object carrying the given name. -/
def updateObjs (s : Scene) (n : String) (f : Obj → Obj) : Scene :=
  { s with objects := s.objects.map (fun o => if o.name == n then f o else o) }

/-- Update every collection carrying the given name. -/
def updateCols (s : Scene) (n : String) (f : Collection → Collection) : Scene :=
  { s with collections := s.collections.map (fun c => if c.name == n then f c else c) }

/-- The active layer collection, when it exists and is an EZCollection. -/
def activeEzCol (s : Scene) : Option Collection :=
  match s.activeCollection with
  | none => none
  | some n =>
    match findCol s n with
    | none => none
    | some c => if is_ez_collection c then some c else none

/-- `get_collection_pivot`: resolve a collection's `ez_pivot` tag. -/
def get_collection_pivot (s : Scene) (c : Collection) : Option Obj :=
  match c.ez_pivot with
  | none => none
  | some t => findObj s t

/-- `set_visibility`: set both visibility flags of a collection. -/
def set_visibility (c : Collection) (visible : Bool) : Collection :=
  { c with hide_viewport := !visible, hide_render := !visible }

/-- One step of `hide_all_pivots`: hide the resolved pivot of one collection. -/
def hidePivotStep (s : Scene) (c : Collection) : Scene :=
  match c.ez_pivot with
  | none => s
  | some t =>
    match findObj s t with
    | none => s
    | some _ => updateObjs s t (fun o => { o with hide_viewport := true })

/-- `hide_all_pivots` iterating over a given collection list. -/
def hideAllPivotsAux (cols : List Collection) (s : Scene) : Scene :=
  match cols with
  | [] => s
  | c :: rest => hideAllPivotsAux rest (hidePivotStep s c)

/-- `hide_all_pivots`: hide every resolvable EZ pivot object. -/
def hide_all_pivots (s : Scene) : Scene := hideAllPivotsAux s.collections s

/-- The candidate names tried by the uniquification loops:
`base`, `base_1`, `base_2`, ... -/
def candName (base : String) (k : Nat) : String :=
  if k = 0 then base else base ++ "_" ++ Nat.repr k

/-- The `while name in existing` loop shared by both versions, with
explicit fuel standing for the host's (terminating) execution. -/
def uniqueNameLoop (base : String) (existing : List String) :
    Nat → String → Nat → String
  | 0, name, _ => name
  | fuel + 1, name, counter =>
    if existing.contains name then
      uniqueNameLoop base existing fuel (base ++ "_" ++ Nat.repr counter) (counter + 1)
    else name

/-- `generate_unique_name` of version 2.4: counter loop against all
existing collection names. -/
def generate_unique_name (base : String) (existing : List String) : String :=
  uniqueNameLoop base existing (existing.length + 1) base 1

/-- `s.startswith(p)` of Python, on the underlying character lists. -/
def pyStartsWith (p s : String) : Bool := p.data.isPrefixOf s.data

/-- `s.strip()` of Python: drop whitespace from both ends (structural
form of `String.trim`, so that it evaluates by reduction). -/
def pyStrip (s : String) : String :=
  ⟨((s.data.dropWhile Char.isWhitespace).reverse.dropWhile Char.isWhitespace).reverse⟩

/-- The old (version 1.2) uniquification: filter the existing names to
those starting with the base name, then run the same counter loop. -/
def old_unique_name (base : String) (allNames : List String) : String :=
  let existing := allNames.filter (fun n => pyStartsWith base n)
  uniqueNameLoop base existing (existing.length + 1) base 1

/-- Decimal digit list of a natural number, most significant digit
first; reference form of `Nat.toDigits 10`. -/
def digitsSpec (n : Nat) : List Char :=
  if _h : n < 10 then [Nat.digitChar n]
  else digitsSpec (n / 10) ++ [Nat.digitChar (n % 10)]
termination_by n
decreasing_by exact Nat.div_lt_self (by omega) (by omega)

/-- `obj.users_collection` restricted to `bpy.data.collections`
(the master scene collection is handled separately where it matters). -/
def usersCollectionsOf (cols : List Collection) (objName : String) : List Collection :=
  cols.filter (fun c => c.objects.contains objName)

/-- Fold shape shared by the hierarchy walks: for every collection of
`cols` passing the guard, append it and the result of a recursive walk. -/
def collectFold (step : Collection → List Collection) (cond : Collection → Bool)
    (cols : List Collection) (init : List Collection) : List Collection :=
  cols.foldl (fun acc p => if cond p then acc ++ p :: step p else acc) init

/-- `find_parent_collections`: append every EZ parent of the named
collection and recurse through it.  The Python recursion carries no
fuel; the explicit fuel stands for its call depth, and
`cols.length` steps suffice on every acyclic scene. -/
def find_parent_collections (cols : List Collection) : Nat → String → List Collection
  | 0, _ => []
  | fuel + 1, childName =>
    collectFold (fun p => find_parent_collections cols fuel p.name)
      (fun p => p.children.contains childName && is_ez_collection p) cols []

/-- `get_collection_hierarchy` as a function of the collection list. -/
def hierarchyOf (cols : List Collection) (objName : String) : List Collection :=
  collectFold (fun c => find_parent_collections cols cols.length c.name)
    is_ez_collection (usersCollectionsOf cols objName) []

/-- `get_collection_hierarchy`: the EZCollections containing the object,
each followed by its chain of EZ ancestors. -/
def get_collection_hierarchy (s : Scene) (objName : String) : List Collection :=
  hierarchyOf s.collections objName

/-- Operator return status. -/
inductive Status where
  | FINISHED
  | CANCELLED
deriving DecidableEq

/-- Operator outcome: status plus the single `self.report` call made. -/
structure OpResult where
  status : Status
  level : String
  message : String
deriving DecidableEq

def cancelledWith (level message : String) : OpResult :=
  ⟨Status.CANCELLED, level, message⟩

def finishedWith (level message : String) : OpResult :=
  ⟨Status.FINISHED, level, message⟩

/-- A freshly created data collection, as `bpy.data.collections.new`
plus the color tag assignment produce it. -/
def newDataCollection (cname ctag : String) : Collection :=
  { name := cname, objects := [], children := [], hide_viewport := false,
    hide_render := false, ez_pivot := none, color_tag := ctag }

/-- Unlink an object from every collection containing it, master scene
collection included (`obj.users_collection` covers both). -/
def unlinkFromAll (s : Scene) (n : String) : Scene :=
  { s with
    collections := s.collections.map (fun c =>
      { c with objects := c.objects.filter (fun m => m != n) }),
    sceneObjects := s.sceneObjects.filter (fun m => m != n) }

/-- `col.objects.link(obj)`. -/
def linkToCol (s : Scene) (colName objName : String) : Scene :=
  updateCols s colName (fun c => { c with objects := c.objects ++ [objName] })

/-- Name given to a freshly created pivot object. -/
def pivotObjName (collection_name : String) : String := "Pivot_" ++ collection_name

/-- `create_smart_pivot`: new icosphere pivot object at the given
location, render-hidden; `is_parent` only changes size, label and
colors, none of which is part of the model. -/
def create_smart_pivot (collection_name : String) (location : Vec3) (_is_parent : Bool) : Obj :=
  { name := pivotObjName collection_name
    worldLoc := location
    parent := none
    hide_viewport := false
    hide_render := true }

/-- `preserve_parent_hierarchy`: parent the root objects among
`objNames` to `newParent` with keep_transform (world locations are
unchanged), via the host's select + parent_set calls. -/
def preserve_parent_hierarchy (s : Scene) (objNames : List String) (newParent : String) : Scene :=
  let objs := objNames.filterMap (findObj s)
  let roots := objs.filter (fun o =>
    match o.parent with
    | none => true
    | some p => !(objNames.contains p))
  let rootNames := roots.map (fun o => o.name)
  let s1 := { s with selected := newParent :: rootNames }
  if rootNames.isEmpty then s1
  else
    let s2 := { s1 with activeObject := some newParent }
    rootNames.foldl (fun acc n =>
      updateObjs acc n (fun o => { o with parent := some newParent })) s2

/-- Left-fold sum of world locations (`sum(..., Vector())`). -/
def sumLocs (objs : List Obj) : Vec3 :=
  objs.foldl (fun acc o => acc + o.worldLoc) Vec3.zero

/-- Success path of `OBJECT_OT_ez_create_collection.execute`, after the
guards have passed and the unique collection name has been generated. -/
def ez_create_success (collection_name : String) (s : Scene) : Scene :=
  let objs := selectedObjects s
  let s1 := { s with
    collections := s.collections ++ [newDataCollection collection_name "COLOR_02"],
    sceneChildren := s.sceneChildren ++ [collection_name] }
  let s2 := objs.foldl (fun acc o =>
    linkToCol (unlinkFromAll acc o.name) collection_name o.name) s1
  let center := (sumLocs objs).divNat objs.length
  let pivot := create_smart_pivot collection_name center false
  let s3 := { s2 with objects := s2.objects ++ [pivot] }
  let s4 := linkToCol s3 collection_name pivot.name
  let s5 := preserve_parent_hierarchy s4 (objs.map (fun o => o.name)) pivot.name
  let s6 := updateCols s5 collection_name (fun c => { c with ez_pivot := some pivot.name })
  let s7 := hide_all_pivots s6
  let s8 := updateObjs s7 pivot.name (fun o => { o with hide_viewport := false })
  { s8 with selected := [pivot.name], activeObject := some pivot.name }

/-- `OBJECT_OT_ez_create_collection.execute`. -/
def ez_create_collection (collection_suffix : String) (s : Scene) : OpResult × Scene :=
  if (selectedObjects s).isEmpty then
    (cancelledWith "ERROR" "Select at least one object first.", s)
  else if pyStrip collection_suffix = "" then
    (cancelledWith "ERROR" "Collection name cannot be empty.", s)
  else
    (finishedWith "INFO" ("Collection " ++
        generate_unique_name ("COL_" ++ pyStrip collection_suffix)
          (s.collections.map (fun c => c.name)) ++ " created with smart pivot."),
      ez_create_success
        (generate_unique_name ("COL_" ++ pyStrip collection_suffix)
          (s.collections.map (fun c => c.name))) s)

/-- One step of the add loop: unlink a not-yet-member object from every
other collection and link it to the target collection (`col` is the
captured active collection; its live state is looked up by name). -/
def addObjStep (col : Collection) (acc : Scene) (o : Obj) : Scene :=
  let live := (findCol acc col.name).getD col
  if live.objects.contains o.name then acc
  else
    let acc1 := { acc with
      collections := acc.collections.map (fun pc =>
        if pc.name == col.name then pc
        else { pc with objects := pc.objects.filter (fun m => m != o.name) }),
      sceneObjects := acc.sceneObjects.filter (fun m => m != o.name) }
    linkToCol acc1 col.name o.name

/-- Success path of `OBJECT_OT_ez_add_to_collection.execute`. -/
def ez_add_success (col : Collection) (pivot : Obj) (s : Scene) : Scene :=
  let selected_objects := (selectedObjects s).filter (fun o => o.name != pivot.name)
  let s1 := selected_objects.foldl (addObjStep col) s
  preserve_parent_hierarchy s1 (selected_objects.map (fun o => o.name)) pivot.name

/-- `OBJECT_OT_ez_add_to_collection.execute`. -/
def ez_add_to_collection (s : Scene) : OpResult × Scene :=
  match activeEzCol s with
  | none => (cancelledWith "ERROR" "Active collection is not an EZCollection.", s)
  | some col =>
    match get_collection_pivot s col with
    | none => (cancelledWith "ERROR" "Pivot not found.", s)
    | some pivot =>
      if ((selectedObjects s).filter (fun o => o.name != pivot.name)).isEmpty then
        (cancelledWith "WARNING" "No valid objects selected.", s)
      else
        (finishedWith "INFO" "Objects added.", ez_add_success col pivot s)

/-- One step of the remove loop: select the object, clear its parent,
unlink it from the active collection and link it to the master scene
collection when absent there. -/
def removeObjStep (col : Collection) (acc : Scene) (o : Obj) : Scene :=
  let a1 : Scene := { acc with selected := [o.name], activeObject := some o.name }
  let a2 := updateObjs a1 o.name (fun ob => { ob with parent := none })
  let live := (findCol a2 col.name).getD col
  let a3 : Scene :=
    if live.objects.contains o.name then
      updateCols a2 col.name (fun c =>
        { c with objects := c.objects.filter (fun m => m != o.name) })
    else a2
  if a3.sceneObjects.contains o.name then a3
  else { a3 with sceneObjects := a3.sceneObjects ++ [o.name] }

/-- Success path of `OBJECT_OT_ez_remove_from_collection.execute`. -/
def ez_remove_success (col : Collection) (s : Scene) : Scene :=
  let pivotName := (get_collection_pivot s col).map (fun p => p.name)
  let selected_objects := (selectedObjects s).filter (fun o => pivotName != some o.name)
  selected_objects.foldl (removeObjStep col) s

/-- `OBJECT_OT_ez_remove_from_collection.execute`. -/
def ez_remove_from_collection (s : Scene) : OpResult × Scene :=
  match activeEzCol s with
  | none => (cancelledWith "ERROR" "Active collection is not an EZCollection.", s)
  | some col =>
    let pivotName := (get_collection_pivot s col).map (fun p => p.name)
    if ((selectedObjects s).filter (fun o => pivotName != some o.name)).isEmpty then
      (cancelledWith "WARNING" "No valid objects selected.", s)
    else
      (finishedWith "INFO" "Objects removed.", ez_remove_success col s)

/-- Inner part of unlock: when there are children, activate the first
one and clear the parent of every child (the host's parent_clear on the
selected children). -/
def unlockClearChildren (children : List Obj) (s1 : Scene) : Scene :=
  match children with
  | [] => s1
  | c0 :: _ =>
    let s1a := { s1 with activeObject := some c0.name }
    children.foldl (fun acc o =>
      updateObjs acc o.name (fun ob => { ob with parent := none })) s1a

/-- Success path of `OBJECT_OT_ez_pivot_unlock.execute`. -/
def ez_unlock_success (col : Collection) (pivot : Obj) (s : Scene) : Scene :=
  let children : List Obj := (col.objects.filterMap (findObj s)).filter
    (fun (o : Obj) => o.parent == some pivot.name)
  let s1 : Scene := { s with selected := children.map (fun o => o.name) }
  let s2 := unlockClearChildren children s1
  { s2 with selected := [pivot.name], activeObject := some pivot.name }

/-- `OBJECT_OT_ez_pivot_unlock.execute`. -/
def ez_pivot_unlock (s : Scene) : OpResult × Scene :=
  match activeEzCol s with
  | none => (cancelledWith "ERROR" "Active collection is not an EZCollection.", s)
  | some col =>
    match get_collection_pivot s col with
    | none => (cancelledWith "ERROR" "Pivot not found.", s)
    | some pivot =>
      (finishedWith "INFO" "Pivot unlocked.", ez_unlock_success col pivot s)

/-- Success path of `OBJECT_OT_ez_pivot_lock.execute`. -/
def ez_lock_success (col : Collection) (pivot : Obj) (s : Scene) : Scene :=
  let collection_objects : List Obj := (col.objects.filterMap (findObj s)).filter
    (fun (o : Obj) => o.name != pivot.name)
  preserve_parent_hierarchy s (collection_objects.map (fun o => o.name)) pivot.name

/-- `OBJECT_OT_ez_pivot_lock.execute`. -/
def ez_pivot_lock (s : Scene) : OpResult × Scene :=
  match activeEzCol s with
  | none => (cancelledWith "ERROR" "Active collection is not an EZCollection.", s)
  | some col =>
    match get_collection_pivot s col with
    | none => (cancelledWith "ERROR" "Pivot not found.", s)
    | some pivot =>
      (finishedWith "INFO" "Pivot locked.", ez_lock_success col pivot s)

/-- One step of the solo restore loop: set a collection's viewport flag
back to its backed-up value, when the collection still exists. -/
def restoreBackupStep (acc : Scene) (entry : String × Bool) : Scene :=
  match findCol acc entry.1 with
  | none => acc
  | some _ => updateCols acc entry.1 (fun c => { c with hide_viewport := entry.2 })

/-- Solo switch-on: back up every collection's viewport flag, then make
exactly the active collection visible. -/
def solo_on (col : Collection) (s : Scene) : Scene :=
  let backup := s.collections.map (fun c => (c.name, c.hide_viewport))
  let s1 := { s with soloBackup := some backup }
  { s1 with collections := s1.collections.map (fun c =>
    set_visibility c (c.name == col.name)) }

/-- Solo switch-off: restore viewport flags from the backup and delete
the backup key. -/
def solo_off (backup : List (String × Bool)) (s : Scene) : Scene :=
  let s1 := backup.foldl restoreBackupStep s
  { s1 with soloBackup := none }

/-- `OBJECT_OT_ez_toggle_solo_collection.execute`. -/
def ez_toggle_solo_collection (s : Scene) : OpResult × Scene :=
  match activeEzCol s with
  | none => (cancelledWith "ERROR" "Active collection is not an EZCollection.", s)
  | some col =>
    match s.soloBackup with
    | none => (finishedWith "INFO" "Solo view ON.", solo_on col s)
    | some backup =>
      (finishedWith "INFO" "Solo view OFF. Restored previous state.", solo_off backup s)

/-- The selected EZCollections scanned by merge: every EZCollection
containing a selected object, without duplicates, in scan order. -/
def selectedEzCollections (s : Scene) : List Collection :=
  (selectedObjects s).foldl (fun acc o =>
    (usersCollectionsOf s.collections o.name).foldl (fun acc2 c =>
      if is_ez_collection c && !(acc2.any (fun d => d.name == c.name)) then acc2 ++ [c]
      else acc2) acc) []

/-- Merge's collection list after the active-collection fallback. -/
def mergeSelCols (s : Scene) : List Collection :=
  let l := selectedEzCollections s
  if l.isEmpty then
    match activeEzCol s with
    | some c => [c]
    | none => []
  else l

/-- Merge's creation and scene-linking of the new parent collection,
performed before the pivot-location check. -/
def mergeLinkNewParent (cname : String) (s : Scene) : Scene :=
  { s with
    collections := s.collections ++ [newDataCollection cname "COLOR_01"],
    sceneChildren := s.sceneChildren ++ [cname] }

/-- One step of the merge loop: move a selected collection under the
new parent collection and parent its pivot to the parent pivot. -/
def mergeColStep (cname : String) (parent_pivot : Obj) (acc : Scene) (c : Collection) : Scene :=
  let a1 : Scene :=
    if acc.sceneChildren.contains c.name then
      { acc with sceneChildren := acc.sceneChildren.filter (fun m => m != c.name) }
    else acc
  let a2 := updateCols a1 cname (fun pc => { pc with children := pc.children ++ [c.name] })
  match get_collection_pivot a2 c with
  | none => a2
  | some child_pivot =>
    let a3 := { a2 with selected := [parent_pivot.name, child_pivot.name],
                        activeObject := some parent_pivot.name }
    updateObjs a3 child_pivot.name (fun o => { o with parent := some parent_pivot.name })

/-- Success path of `OBJECT_OT_ez_merge_collections.execute`, run on the
state that already holds the linked new parent collection. -/
def ez_merge_success (selected_collections : List Collection) (cname : String)
    (pivot_locations : List Vec3) (s1 : Scene) : Scene :=
  let parent_center := (pivot_locations.foldl (fun a v => a + v) Vec3.zero).divNat
    pivot_locations.length
  let parent_pivot := create_smart_pivot cname parent_center true
  let s2 := { s1 with objects := s1.objects ++ [parent_pivot] }
  let s3 := linkToCol s2 cname parent_pivot.name
  let s4 := selected_collections.foldl (mergeColStep cname parent_pivot) s3
  let s5 := updateCols s4 cname (fun c => { c with ez_pivot := some parent_pivot.name })
  let s6 := hide_all_pivots s5
  let s7 := updateObjs s6 parent_pivot.name (fun o => { o with hide_viewport := false })
  { s7 with selected := [parent_pivot.name], activeObject := some parent_pivot.name }

/-- Merge after the two early guards: create and link the new parent
collection, then gather the child pivot locations and either cancel
(leaving the new collection behind) or run the success path. -/
def mergeAfterGuards (selected_collections : List Collection) (cname : String)
    (s : Scene) : OpResult × Scene :=
  let s1 := mergeLinkNewParent cname s
  let pivot_locations := selected_collections.filterMap
    (fun c => (get_collection_pivot s1 c).map (fun p => p.worldLoc))
  if pivot_locations.isEmpty then
    (cancelledWith "ERROR" "No valid pivots found in selected EZCollections.", s1)
  else
    (finishedWith "INFO" "Merged EZCollections.",
      ez_merge_success selected_collections cname pivot_locations s1)

/-- `OBJECT_OT_ez_merge_collections.execute`. -/
def ez_merge_collections (parent_collection_name : String) (s : Scene) : OpResult × Scene :=
  if (mergeSelCols s).length < 2 then
    (cancelledWith "ERROR" "Select objects from at least 2 EZCollections to merge them.", s)
  else if pyStrip parent_collection_name = "" then
    (cancelledWith "ERROR" "Parent collection name cannot be empty.", s)
  else
    mergeAfterGuards (mergeSelCols s)
      (generate_unique_name ("COL_" ++ pyStrip parent_collection_name)
        (s.collections.map (fun c => c.name))) s

/-- One step of the unmerge loop: clear the child pivot's parent, move
the child collection out from under the parent and link it to the
scene. -/
def unmergeColStep (parent_col : Collection) (acc : Scene) (c : Collection) : Scene :=
  let a1 : Scene :=
    match get_collection_pivot acc c with
    | none => acc
    | some child_pivot =>
      if child_pivot.parent.isSome then
        let t := { acc with selected := [child_pivot.name],
                            activeObject := some child_pivot.name }
        updateObjs t child_pivot.name (fun o => { o with parent := none })
      else acc
  let a2 := updateCols a1 parent_col.name (fun pc =>
    { pc with children := pc.children.filter (fun m => m != c.name) })
  { a2 with sceneChildren := a2.sceneChildren ++ [c.name] }

/-- Success path of `OBJECT_OT_ez_unmerge_collections.execute`. -/
def ez_unmerge_success (parent_col : Collection) (s : Scene) : Scene :=
  let child_collections := (parent_col.children.filterMap (findCol s)).filter is_ez_collection
  child_collections.foldl (unmergeColStep parent_col) s

/-- `OBJECT_OT_ez_unmerge_collections.execute`. -/
def ez_unmerge_collections (s : Scene) : OpResult × Scene :=
  match activeEzCol s with
  | none => (cancelledWith "ERROR" "Active collection is not an EZCollection.", s)
  | some parent_col =>
    if ((parent_col.children.filterMap (findCol s)).filter is_ez_collection).isEmpty then
      (cancelledWith "WARNING" "No child EZCollections found to unmerge.", s)
    else
      (finishedWith "INFO" "Unmerged EZCollections.", ez_unmerge_success parent_col s)

/-- The eight pie-menu operators. -/
inductive Op where
  | create (collection_suffix : String)
  | add
  | remove
  | lock
  | unlock
  | solo
  | merge (parent_collection_name : String)
  | unmerge
deriving DecidableEq

/-- Dispatch one operator execution. -/
def applyOp : Op → Scene → OpResult × Scene
  | Op.create suf, s => ez_create_collection suf s
  | Op.add, s => ez_add_to_collection s
  | Op.remove, s => ez_remove_from_collection s
  | Op.lock, s => ez_pivot_lock s
  | Op.unlock, s => ez_pivot_unlock s
  | Op.solo, s => ez_toggle_solo_collection s
  | Op.merge n, s => ez_merge_collections n s
  | Op.unmerge, s => ez_unmerge_collections s

/-- Timer state: the scene plus the `_last_selected` global. -/
structure TimerState where
  scene : Scene
  lastSelected : List String
deriving DecidableEq

/-- Equality of Python name sets, as lists up to membership. -/
def sameSet (a b : List String) : Bool :=
  a.all (fun x => b.contains x) && b.all (fun x => a.contains x)

/-- `set(obj.name for obj in bpy.context.selected_objects if obj)`. -/
def currentSelectedNames (s : Scene) : List String :=
  (selectedObjects s).map (fun o => o.name)

/-- One collection of the timer's inner loop: reveal its pivot unless
its name is already in the shown set, then record it as shown. -/
def showHierStep (p : Scene × List String) (c : Collection) : Scene × List String :=
  if p.2.contains c.name then p
  else
    match get_collection_pivot p.1 c with
    | none => p
    | some pv =>
      (updateObjs p.1 pv.name (fun o => { o with hide_viewport := false }),
       p.2 ++ [c.name])

/-- Inner loop of the timer: reveal the pivot of each hierarchy
collection not yet shown, extending the shown set. -/
def showPivotsForHierarchy (hier : List Collection) (acc : Scene × List String) :
    Scene × List String :=
  hier.foldl showHierStep acc

/-- One selected name of the timer's outer loop: resolve it and process
the collection hierarchy of the resolved object. -/
def showNamesStep (p : Scene × List String) (n : String) : Scene × List String :=
  match findObj p.1 n with
  | none => p
  | some o => showPivotsForHierarchy (get_collection_hierarchy p.1 o.name) p

/-- Outer loop of the timer: process each selected object name. -/
def showPivotsForNames (names : List String) (acc : Scene × List String) :
    Scene × List String :=
  names.foldl showNamesStep acc

/-- `selection_timer`: one run of the 100ms polling callback. -/
def selection_timer (ts : TimerState) : TimerState :=
  let current_selected := currentSelectedNames ts.scene
  if sameSet current_selected ts.lastSelected then ts
  else if current_selected.isEmpty then
    { scene := hide_all_pivots ts.scene, lastSelected := current_selected }
  else
    let s1 := hide_all_pivots ts.scene
    let p := showPivotsForNames current_selected (s1, [])
    { scene := p.1, lastSelected := current_selected }

/-- Reveal (in the viewport) every object whose name the flag set
selects; the shape of the object list after the timer's reveal loops. -/
def revealFlag (R : String → Bool) (o : Obj) : Obj :=
  if R o.name then { o with hide_viewport := false } else o

/-- Some scene object carries the given name. -/
def resolvable (s : Scene) (n : String) : Prop := ∃ ob ∈ s.objects, ob.name = n

/-- A collection of the list tags `x` as its pivot, and the tag
resolves in the scene: the inner reveal loop will show `x`. -/
def hierHit (s : Scene) (hier : List Collection) (x : String) : Prop :=
  ∃ c ∈ hier, c.ez_pivot = some x ∧ resolvable s x

/-- Some processed selected name resolves and carries a hierarchy
collection whose pivot tag is `x`: the outer reveal loop shows `x`. -/
def namesHit (s : Scene) (names : List String) (x : String) : Prop :=
  ∃ n ∈ names, resolvable s n ∧ hierHit s (hierarchyOf s.collections n) x

/-- Object names present in a scene. -/
def objNames (s : Scene) : List String := s.objects.map (fun o => o.name)

/-- All `ez_pivot` tags present in a scene. -/
def tagList (s : Scene) : List String := s.collections.filterMap (fun c => c.ez_pivot)

/-- Executable form of the pivot-liveness invariant: every collection
carrying an `ez_pivot` tag names an existing scene object. -/
def pivotTagsLiveB (s : Scene) : Bool :=
  s.collections.all (fun c =>
    match c.ez_pivot with
    | none => true
    | some t => s.objects.any (fun o => o.name == t))

/-- Claim C8 invariant, as a proposition. -/
def PivotTagsLive (s : Scene) : Prop := pivotTagsLiveB s = true

/-- One scene step covers another when it keeps every object name and
introduces no `ez_pivot` tag that is neither an old tag nor the name of
an object of the new scene. -/
def Covers (s t : Scene) : Prop :=
  (∀ n, n ∈ objNames s → n ∈ objNames t) ∧
  (∀ n, n ∈ tagList t → n ∈ tagList s ∨ n ∈ objNames t)

/-- Cancellation condition actually implemented by the code, for each
operator (the amended form of claim C9's case list). -/
def cancelCondB : Op → Scene → Bool
  | Op.create suf, s => (selectedObjects s).isEmpty || (pyStrip suf == "")
  | Op.add, s =>
    match activeEzCol s with
    | none => true
    | some col =>
      match get_collection_pivot s col with
      | none => true
      | some pivot => ((selectedObjects s).filter (fun o => o.name != pivot.name)).isEmpty
  | Op.remove, s =>
    match activeEzCol s with
    | none => true
    | some col =>
      ((selectedObjects s).filter (fun o =>
        ((get_collection_pivot s col).map (fun p => p.name)) != some o.name)).isEmpty
  | Op.lock, s =>
    match activeEzCol s with
    | none => true
    | some col => (get_collection_pivot s col).isNone
  | Op.unlock, s =>
    match activeEzCol s with
    | none => true
    | some col => (get_collection_pivot s col).isNone
  | Op.solo, s => (activeEzCol s).isNone
  | Op.merge pname, s =>
    decide ((mergeSelCols s).length < 2) || (pyStrip pname == "") ||
      ((mergeSelCols s).filterMap
        (fun c => (get_collection_pivot s c).map (fun p => p.worldLoc))).isEmpty
  | Op.unmerge, s =>
    match activeEzCol s with
    | none => true
    | some parent_col =>
      ((parent_col.children.filterMap (findCol s)).filter is_ez_collection).isEmpty

/-- Cancellation condition as enumerated by claim C9's sentence. -/
def listedCondB : Op → Scene → Bool
  | Op.create suf, s => (selectedObjects s).isEmpty || (pyStrip suf == "")
  | Op.add, s =>
    match activeEzCol s with
    | none => true
    | some col =>
      ((selectedObjects s).filter (fun o =>
        ((get_collection_pivot s col).map (fun p => p.name)) != some o.name)).isEmpty
  | Op.remove, s =>
    match activeEzCol s with
    | none => true
    | some col =>
      ((selectedObjects s).filter (fun o =>
        ((get_collection_pivot s col).map (fun p => p.name)) != some o.name)).isEmpty
  | Op.lock, s => (activeEzCol s).isNone
  | Op.unlock, s => (activeEzCol s).isNone
  | Op.solo, s => (activeEzCol s).isNone
  | Op.merge _, s => decide ((mergeSelCols s).length < 2)
  | Op.unmerge, s => (activeEzCol s).isNone

/-! #### Concrete scenes used by the counterexamples and witnesses -/

/-- Object `o1` at (1, 2, 3). -/
def objO1 : Obj :=
  { name := "o1", worldLoc := ⟨1, 2, 3⟩, parent := none,
    hide_viewport := false, hide_render := false }

/-- Object `o2` at (3, 4, 5). -/
def objO2 : Obj :=
  { name := "o2", worldLoc := ⟨3, 4, 5⟩, parent := none,
    hide_viewport := false, hide_render := false }

/-- Pivot object of collection `A`. -/
def objPA : Obj :=
  { name := "pA", worldLoc := ⟨0, 0, 0⟩, parent := none,
    hide_viewport := false, hide_render := true }

/-- EZCollection `A` holding `o1` and its live pivot `pA`. -/
def colA : Collection :=
  { name := "A", objects := ["o1", "pA"], children := [], hide_viewport := false,
    hide_render := false, ez_pivot := some "pA", color_tag := "COLOR_02" }

/-- EZCollection `B` holding `o2`, with a dangling pivot tag. -/
def colB : Collection :=
  { name := "B", objects := ["o2"], children := [], hide_viewport := false,
    hide_render := false, ez_pivot := some "ghostB", color_tag := "COLOR_02" }

/-- Two-collection scene with `o1`, `o2` selected and `A` active. -/
def sceneAB : Scene :=
  { objects := [objO1, objO2, objPA], collections := [colA, colB],
    sceneObjects := [], sceneChildren := ["A", "B"], soloBackup := none,
    selected := ["o1", "o2"], activeObject := some "o1", activeCollection := some "A" }

/-- Variant of `A` whose pivot tag names no object. -/
def colAGhost : Collection :=
  { name := "A", objects := ["o1"], children := [], hide_viewport := false,
    hide_render := false, ez_pivot := some "ghostA", color_tag := "COLOR_02" }

/-- Scene in which both selected EZCollections have dangling pivot tags. -/
def sceneGhosts : Scene :=
  { objects := [objO1, objO2], collections := [colAGhost, colB],
    sceneObjects := [], sceneChildren := ["A", "B"], soloBackup := none,
    selected := ["o1", "o2"], activeObject := some "o1", activeCollection := some "A" }

/-- EZCollection `C` directly containing `o1`. -/
def colC : Collection :=
  { name := "C", objects := ["o1"], children := [], hide_viewport := false,
    hide_render := false, ez_pivot := some "pc", color_tag := "COLOR_02" }

/-- Plain (non-EZ) collection `P` with child `C`. -/
def colP : Collection :=
  { name := "P", objects := [], children := ["C"], hide_viewport := false,
    hide_render := false, ez_pivot := none, color_tag := "COLOR_01" }

/-- EZCollection `G` with child `P`: an EZ ancestor of `C` reachable
only through the non-EZ collection `P`. -/
def colG : Collection :=
  { name := "G", objects := [], children := ["P"], hide_viewport := false,
    hide_render := false, ez_pivot := some "pg", color_tag := "COLOR_01" }

/-- Acyclic chain scene: `o1` in `C`, `C` under `P`, `P` under `G`. -/
def sceneChain : Scene :=
  { objects := [objO1], collections := [colC, colP, colG],
    sceneObjects := [], sceneChildren := ["G"], soloBackup := none,
    selected := ["o1"], activeObject := some "o1", activeCollection := some "C" }

/-- Small scene in which every pivot tag is live. -/
def sceneLive : Scene :=
  { objects := [objO1, objPA], collections := [colA],
    sceneObjects := [], sceneChildren := ["A"], soloBackup := none,
    selected := ["o1"], activeObject := some "o1", activeCollection := some "A" }

/-- Specification-side centroid: the component-wise arithmetic mean of
the world-space translations of a list of objects. -/
def meanLoc (objs : List Obj) : Vec3 :=
  ⟨(objs.map (fun o => o.worldLoc.x)).sum / objs.length,
   (objs.map (fun o => o.worldLoc.y)).sum / objs.length,
   (objs.map (fun o => o.worldLoc.z)).sum / objs.length⟩

/-- World location of the object found under a name, if any. -/
def locOf (t : Scene) (k : String) : Option Vec3 :=
  (findObj t k).map (fun o => o.worldLoc)

/-- `q` is an ancestor of collection `c` through an arbitrary chain of
parent links within `cols` (intermediates unrestricted). -/
inductive CollAncestor (cols : List Collection) : Collection → Collection → Prop where
  | parent {c p : Collection} : p ∈ cols → p.children.contains c.name = true →
      CollAncestor cols c p
  | grand {c p q : Collection} : p ∈ cols → p.children.contains c.name = true →
      CollAncestor cols p q → CollAncestor cols c q

/-- `q` is an ancestor of collection `c` through a chain every link of
which is an EZCollection. -/
inductive EzAncestor (cols : List Collection) : Collection → Collection → Prop where
  | parent {c p : Collection} : p ∈ cols → p.children.contains c.name = true →
      is_ez_collection p = true → EzAncestor cols c p
  | grand {c p q : Collection} : p ∈ cols → p.children.contains c.name = true →
      is_ez_collection p = true → EzAncestor cols p q → EzAncestor cols c q

/-- Acyclicity of the collection-parent relation, witnessed by a
topological rank bounded by the number of collections. -/
def AcyclicCols (cols : List Collection) : Prop :=
  ∃ rank : String → Nat,
    (∀ p ∈ cols, ∀ cn ∈ p.children, rank cn < rank p.name) ∧
    (∀ p ∈ cols, rank p.name < cols.length)

/-! ### Decimal representation: `Nat.repr` is injective -/

theorem digitsSpec_lt {n : Nat} (h : n < 10) : digitsSpec n = [Nat.digitChar n] := by
  rw [digitsSpec, dif_pos h]

theorem digitsSpec_ge {n : Nat} (h : ¬ n < 10) :
    digitsSpec n = digitsSpec (n / 10) ++ [Nat.digitChar (n % 10)] := by
  rw [digitsSpec, dif_neg h]

theorem toDigitsCore_eq_digitsSpec :
    ∀ fuel n ds, n < fuel → Nat.toDigitsCore 10 fuel n ds = digitsSpec n ++ ds := by
  intro fuel
  induction fuel with
  | zero => intro n ds h; omega
  | succ f ih =>
    intro n ds h
    rw [Nat.toDigitsCore]
    by_cases h10 : n < 10
    · have hdiv : n / 10 = 0 := Nat.div_eq_of_lt h10
      rw [if_pos hdiv, digitsSpec_lt h10, Nat.mod_eq_of_lt h10]
      simp
    · have hdiv : ¬ n / 10 = 0 := by omega
      rw [if_neg hdiv]
      have hlt : n / 10 < n := Nat.div_lt_self (by omega) (by omega)
      rw [ih (n / 10) _ (by omega), digitsSpec_ge h10]
      simp

theorem digitsSpec_ne_nil (n : Nat) : digitsSpec n ≠ [] := by
  by_cases h : n < 10
  · rw [digitsSpec_lt h]; simp
  · rw [digitsSpec_ge h]; simp

theorem digitChar_inj_fin :
    ∀ a b : Fin 10, Nat.digitChar a.val = Nat.digitChar b.val → a = b := by
  decide

theorem digitChar_inj_lt (a b : Nat) (ha : a < 10) (hb : b < 10)
    (h : Nat.digitChar a = Nat.digitChar b) : a = b := by
  have := digitChar_inj_fin ⟨a, ha⟩ ⟨b, hb⟩ h
  simpa using congrArg Fin.val this

theorem digitsSpec_inj : ∀ m n : Nat, digitsSpec m = digitsSpec n → m = n := by
  intro m
  induction m using Nat.strong_induction_on with
  | _ m ih =>
    intro n h
    by_cases hm : m < 10 <;> by_cases hn : n < 10
    · rw [digitsSpec_lt hm, digitsSpec_lt hn] at h
      exact digitChar_inj_lt m n hm hn (by injection h)
    · rw [digitsSpec_lt hm, digitsSpec_ge hn] at h
      have hlen : 1 = (digitsSpec (n / 10)).length + 1 := by
        simpa using congrArg List.length h
      exact absurd (List.length_eq_zero.mp (by omega)) (digitsSpec_ne_nil (n / 10))
    · rw [digitsSpec_ge hm, digitsSpec_lt hn] at h
      have hlen : (digitsSpec (m / 10)).length + 1 = 1 := by
        simpa using congrArg List.length h
      exact absurd (List.length_eq_zero.mp (by omega)) (digitsSpec_ne_nil (m / 10))
    · rw [digitsSpec_ge hm, digitsSpec_ge hn] at h
      obtain ⟨h1, h2⟩ := List.append_inj' h (by simp)
      have hmod : m % 10 = n % 10 :=
        digitChar_inj_lt _ _ (Nat.mod_lt _ (by omega)) (Nat.mod_lt _ (by omega))
          (by injection h2)
      have hdivlt : m / 10 < m := Nat.div_lt_self (by omega) (by omega)
      have hdiv : m / 10 = n / 10 := ih (m / 10) hdivlt (n / 10) h1
      omega

theorem natRepr_inj {m n : Nat} (h : Nat.repr m = Nat.repr n) : m = n := by
  have hd : Nat.toDigits 10 m = Nat.toDigits 10 n := congrArg String.data h
  rw [Nat.toDigits, Nat.toDigits,
      toDigitsCore_eq_digitsSpec (m + 1) m [] (by omega),
      toDigitsCore_eq_digitsSpec (n + 1) n [] (by omega)] at hd
  simp at hd
  exact digitsSpec_inj m n hd

/-! ### Candidate names of the uniquification loops -/

theorem candName_zero (base : String) : candName base 0 = base := rfl

theorem candName_pos (base : String) (k : Nat) (h : k ≠ 0) :
    candName base k = base ++ "_" ++ Nat.repr k := by
  rw [candName, if_neg h]

theorem candName_data (base : String) (k : Nat) (h : k ≠ 0) :
    (candName base k).data = base.data ++ '_' :: (Nat.repr k).data := by
  rw [candName_pos base k h]
  simp

theorem candName_inj (base : String) : Function.Injective (candName base) := by
  intro i j h
  have hd := congrArg String.data h
  by_cases hi : i = 0 <;> by_cases hj : j = 0
  · omega
  · exfalso
    rw [hi, candName_zero, candName_data base j hj] at hd
    have hlen := congrArg List.length hd
    simp [List.length_append] at hlen
  · exfalso
    rw [hj, candName_zero, candName_data base i hi] at hd
    have hlen := congrArg List.length hd
    simp [List.length_append] at hlen
  · rw [candName_data base i hi, candName_data base j hj] at hd
    have h2 := List.append_cancel_left hd
    have h3 : (Nat.repr i).data = (Nat.repr j).data := by
      injection h2
    exact natRepr_inj (String.ext h3)

theorem candName_startsWith (base : String) (k : Nat) :
    pyStartsWith base (candName base k) = true := by
  rw [pyStartsWith, List.isPrefixOf_iff_prefix]
  by_cases h : k = 0
  · rw [h, candName_zero]
  · rw [candName_data base k h]
    exact List.prefix_append _ _

/-- Pigeonhole: among the first `l.length + 1` candidate names at least
one is not in `l`. -/
theorem exists_candName_not_mem (base : String) (l : List String) :
    ∃ m, m ≤ l.length ∧ candName base m ∉ l := by
  by_contra hall
  push_neg at hall
  have hsub : (List.range (l.length + 1)).map (candName base) ⊆ l := by
    intro x hx
    obtain ⟨m, hm, rfl⟩ := List.mem_map.mp hx
    exact hall m (by simpa using Nat.lt_succ_iff.mp (List.mem_range.mp hm))
  have hnd : ((List.range (l.length + 1)).map (candName base)).Nodup :=
    (List.nodup_range _).map (candName_inj base)
  have := (List.subperm_of_subset hnd hsub).length_le
  simp at this

/-- The shared while-loop returns the first free candidate, given
enough fuel. -/
theorem uniqueNameLoop_eq_cand (base : String) (ex : List String) :
    ∀ fuel k m, k ≤ m → candName base m ∉ ex →
      (∀ i, k ≤ i → i < m → candName base i ∈ ex) → m - k ≤ fuel →
      uniqueNameLoop base ex fuel (candName base k) (k + 1) = candName base m := by
  intro fuel
  induction fuel with
  | zero =>
    intro k m hkm hfree _hmin hfuel
    have : m = k := by omega
    subst this
    rfl
  | succ f ih =>
    intro k m hkm hfree hmin hfuel
    rw [uniqueNameLoop]
    by_cases hmem : candName base k ∈ ex
    · have hk : k < m := by
        rcases Nat.lt_or_ge k m with h | h
        · exact h
        · have : m = k := by omega
          exact absurd (this ▸ hmem) hfree
      rw [if_pos (by simpa using hmem)]
      have hnext : base ++ "_" ++ Nat.repr (k + 1) = candName base (k + 1) :=
        (candName_pos base (k + 1) (by omega)).symm
      rw [hnext]
      exact ih (k + 1) m (by omega) hfree (fun i h1 h2 => hmin i (by omega) h2) (by omega)
    · rw [if_neg (by simpa using hmem)]
      have : m = k := by
        rcases Nat.lt_or_ge k m with h | h
        · exact absurd (hmin k (by omega) h) hmem
        · omega
      rw [this]

/-- Claim C10 core: both uniquification procedures return the first
free candidate name. -/
theorem generate_unique_name_eq_cand (base : String) (allNames : List String)
    (hex : ∃ m, candName base m ∉ allNames) :
    generate_unique_name base allNames = candName base (Nat.find hex) := by
  rw [generate_unique_name]
  obtain ⟨m0, hm0, hfree⟩ := exists_candName_not_mem base allNames
  exact uniqueNameLoop_eq_cand base allNames (allNames.length + 1) 0 (Nat.find hex)
    (Nat.zero_le _) (Nat.find_spec hex)
    (fun i _ h2 => not_not.mp (Nat.find_min hex h2))
    (by have := Nat.find_min' hex hfree; omega)

theorem old_unique_name_eq_cand (base : String) (allNames : List String)
    (hex : ∃ m, candName base m ∉ allNames) :
    old_unique_name base allNames = candName base (Nat.find hex) := by
  rw [old_unique_name]
  have hmemiff : ∀ m, candName base m ∈ allNames.filter (fun n => pyStartsWith base n) ↔
      candName base m ∈ allNames := by
    intro m
    rw [List.mem_filter]
    exact ⟨fun h => h.1, fun h => ⟨h, candName_startsWith base m⟩⟩
  have hfree2 : candName base (Nat.find hex) ∉
      allNames.filter (fun n => pyStartsWith base n) :=
    fun h => Nat.find_spec hex ((hmemiff _).mp h)
  have hbound : Nat.find hex ≤ (allNames.filter (fun n => pyStartsWith base n)).length := by
    obtain ⟨m0, hm0, hfree⟩ :=
      exists_candName_not_mem base (allNames.filter (fun n => pyStartsWith base n))
    have : candName base m0 ∉ allNames := fun h => hfree ((hmemiff m0).mpr h)
    have := Nat.find_min' hex this
    omega
  exact uniqueNameLoop_eq_cand base _ _ 0 (Nat.find hex)
    (Nat.zero_le _) hfree2
    (fun i _ h2 => (hmemiff i).mpr (not_not.mp (Nat.find_min hex h2)))
    (by omega)

/-- Claim C10: the old filtered uniquification and `generate_unique_name`
compute the same final name for every base name and every finite list of
existing collection names, and both loops terminate: the common result
is outside the existing-name list (so the `while` condition eventually
fails in both versions). -/
theorem c10_unique_name_equivalence (base : String) (allNames : List String) :
    old_unique_name base allNames = generate_unique_name base allNames ∧
      generate_unique_name base allNames ∉ allNames := by
  have hex : ∃ m, candName base m ∉ allNames := by
    obtain ⟨m, _, h⟩ := exists_candName_not_mem base allNames
    exact ⟨m, h⟩
  rw [old_unique_name_eq_cand base allNames hex, generate_unique_name_eq_cand base allNames hex]
  exact ⟨rfl, Nat.find_spec hex⟩

/-! ### Pivot-liveness invariant machinery (claim C8) -/

theorem pivotTagsLive_iff (s : Scene) :
    PivotTagsLive s ↔ ∀ n ∈ tagList s, n ∈ objNames s := by
  rw [PivotTagsLive, pivotTagsLiveB, List.all_eq_true]
  constructor
  · intro h n hn
    rw [tagList, List.mem_filterMap] at hn
    obtain ⟨c, hc, hcp⟩ := hn
    have hx := h c hc
    rw [hcp] at hx
    obtain ⟨o, ho, hno⟩ := List.any_eq_true.mp hx
    rw [objNames, List.mem_map]
    exact ⟨o, ho, by simpa using hno⟩
  · intro h c hc
    cases hcp : c.ez_pivot with
    | none => rfl
    | some t =>
      have ht : t ∈ tagList s := by
        rw [tagList, List.mem_filterMap]
        exact ⟨c, hc, hcp⟩
      have := h t ht
      rw [objNames, List.mem_map] at this
      obtain ⟨o, ho, hno⟩ := this
      exact List.any_eq_true.mpr ⟨o, ho, by simp [hno]⟩

theorem covers_rfl (s : Scene) : Covers s s :=
  ⟨fun _ h => h, fun _ h => Or.inl h⟩

theorem covers_trans {s t u : Scene} (h1 : Covers s t) (h2 : Covers t u) : Covers s u := by
  refine ⟨fun n hn => h2.1 n (h1.1 n hn), fun n hn => ?_⟩
  rcases h2.2 n hn with h | h
  · rcases h1.2 n h with h' | h'
    · exact Or.inl h'
    · exact Or.inr (h2.1 n h')
  · exact Or.inr h

theorem live_of_covers {s t : Scene} (h : Covers s t) (hl : PivotTagsLive s) :
    PivotTagsLive t := by
  rw [pivotTagsLive_iff] at hl ⊢
  intro n hn
  rcases h.2 n hn with h' | h'
  · exact h.1 n (hl n h')
  · exact h'

theorem covers_rebuild {s t u : Scene} (h : Covers s t)
    (hobj : u.objects = t.objects) (hcol : u.collections = t.collections) : Covers s u := by
  constructor
  · intro n hn
    rw [objNames, hobj]
    exact h.1 n hn
  · intro n hn
    rw [tagList, hcol] at hn
    rcases h.2 n hn with h' | h'
    · exact Or.inl h'
    · right
      rw [objNames, hobj]
      exact h'

theorem tagList_map_of_tagpres {cols : List Collection} {g : Collection → Collection}
    (hg : ∀ c, (g c).ez_pivot = c.ez_pivot) :
    (cols.map g).filterMap (fun c => c.ez_pivot) = cols.filterMap (fun c => c.ez_pivot) := by
  rw [List.filterMap_map]
  congr 1
  funext c
  exact hg c

theorem covers_rebuild_mapcols {s t u : Scene} {g : Collection → Collection} (h : Covers s t)
    (hobj : u.objects = t.objects) (hcol : u.collections = t.collections.map g)
    (hg : ∀ c, (g c).ez_pivot = c.ez_pivot) : Covers s u := by
  constructor
  · intro n hn
    rw [objNames, hobj]
    exact h.1 n hn
  · intro n hn
    rw [tagList, hcol, tagList_map_of_tagpres hg] at hn
    rcases h.2 n hn with h' | h'
    · exact Or.inl h'
    · right
      rw [objNames, hobj]
      exact h'

theorem objNames_map_of_namepres {objs : List Obj} {f : Obj → Obj}
    (hf : ∀ o, (f o).name = o.name) :
    (objs.map f).map (fun o => o.name) = objs.map (fun o => o.name) := by
  rw [List.map_map]
  congr 1
  funext o
  exact hf o

theorem covers_rebuild_mapobjs {s t u : Scene} {f : Obj → Obj} (h : Covers s t)
    (hobj : u.objects = t.objects.map f) (hcol : u.collections = t.collections)
    (hf : ∀ o, (f o).name = o.name) : Covers s u := by
  have hnames : objNames u = objNames t := by
    rw [objNames, hobj, objNames_map_of_namepres hf]
    rfl
  constructor
  · intro n hn
    rw [hnames]
    exact h.1 n hn
  · intro n hn
    rw [tagList, hcol] at hn
    rcases h.2 n hn with h' | h'
    · exact Or.inl h'
    · right
      rw [hnames]
      exact h'

theorem covers_updateObjs {s t : Scene} {n0 : String} {f : Obj → Obj} (h : Covers s t)
    (hf : ∀ o, (f o).name = o.name) : Covers s (updateObjs t n0 f) := by
  refine covers_rebuild_mapobjs (f := fun o => if o.name == n0 then f o else o) h ?_ ?_ ?_
  · rfl
  · rfl
  · intro o
    dsimp only
    split
    · exact hf o
    · rfl

theorem covers_updateCols {s t : Scene} {n0 : String} {f : Collection → Collection}
    (h : Covers s t) (hf : ∀ c, (f c).ez_pivot = c.ez_pivot) :
    Covers s (updateCols t n0 f) := by
  refine covers_rebuild_mapcols (g := fun c => if c.name == n0 then f c else c) h ?_ ?_ ?_
  · rfl
  · rfl
  · intro c
    dsimp only
    split
    · exact hf c
    · rfl

theorem covers_append_obj {s t u : Scene} {o0 : Obj} (h : Covers s t)
    (hobj : u.objects = t.objects ++ [o0]) (hcol : u.collections = t.collections) :
    Covers s u := by
  constructor
  · intro n hn
    rw [objNames, hobj, List.map_append, List.mem_append]
    exact Or.inl (h.1 n hn)
  · intro n hn
    rw [tagList, hcol] at hn
    rcases h.2 n hn with h' | h'
    · exact Or.inl h'
    · right
      rw [objNames, hobj, List.map_append, List.mem_append]
      exact Or.inl h'

theorem covers_append_col {s t u : Scene} {c0 : Collection} (h : Covers s t)
    (hobj : u.objects = t.objects) (hcol : u.collections = t.collections ++ [c0])
    (htag : c0.ez_pivot = none) : Covers s u := by
  constructor
  · intro n hn
    rw [objNames, hobj]
    exact h.1 n hn
  · intro n hn
    rw [tagList, hcol, List.filterMap_append] at hn
    rcases List.mem_append.mp hn with h' | h'
    · rcases h.2 n h' with h'' | h''
      · exact Or.inl h''
      · right
        rw [objNames, hobj]
        exact h''
    · simp [htag] at h'

theorem covers_set_tag {s t : Scene} {cn pname : String} (h : Covers s t)
    (hex : pname ∈ objNames t) :
    Covers s (updateCols t cn (fun c => { c with ez_pivot := some pname })) := by
  constructor
  · intro n hn
    exact h.1 n hn
  · intro n hn
    have hn' : n ∈ (t.collections.map (fun c =>
        if c.name == cn then { c with ez_pivot := some pname } else c)).filterMap
        (fun c => c.ez_pivot) := hn
    rw [List.filterMap_map] at hn'
    obtain ⟨c, hc, hcp⟩ := List.mem_filterMap.mp hn'
    simp only [Function.comp] at hcp
    by_cases hcn : (c.name == cn) = true
    · rw [if_pos hcn] at hcp
      simp only at hcp
      have : n = pname := by
        cases hcp
        rfl
      subst this
      exact Or.inr hex
    · rw [if_neg hcn] at hcp
      have : n ∈ tagList t := by
        rw [tagList, List.mem_filterMap]
        exact ⟨c, hc, hcp⟩
      rcases h.2 n this with h' | h'
      · exact Or.inl h'
      · exact Or.inr h'

theorem covers_foldl {β : Type} {s : Scene} {l : List β} {step : Scene → β → Scene}
    {init : Scene} (hinit : Covers s init)
    (hstep : ∀ acc b, Covers acc (step acc b)) :
    Covers s (l.foldl step init) := by
  induction l generalizing init with
  | nil => exact hinit
  | cons b rest ih => exact ih (covers_trans hinit (hstep init b))

theorem covers_unlinkFromAll {s t : Scene} {n0 : String} (h : Covers s t) :
    Covers s (unlinkFromAll t n0) := by
  refine covers_rebuild_mapcols
    (g := fun c => { c with objects := c.objects.filter (fun m => m != n0) }) h ?_ ?_ ?_
  · rfl
  · rfl
  · intro c
    rfl

theorem covers_linkToCol {s t : Scene} {a b : String} (h : Covers s t) :
    Covers s (linkToCol t a b) :=
  covers_updateCols h (fun _ => rfl)

theorem covers_hidePivotStep {s t : Scene} (c : Collection) (h : Covers s t) :
    Covers s (hidePivotStep t c) := by
  rw [hidePivotStep]
  split
  · exact h
  · split
    · exact h
    · exact covers_updateObjs h (fun _ => rfl)

theorem covers_hideAllAux {s : Scene} (cols : List Collection) {t : Scene} (h : Covers s t) :
    Covers s (hideAllPivotsAux cols t) := by
  induction cols generalizing t with
  | nil => exact h
  | cons c rest ih =>
    rw [hideAllPivotsAux]
    exact ih (covers_hidePivotStep c h)

theorem covers_hide_all {s t : Scene} (h : Covers s t) : Covers s (hide_all_pivots t) :=
  covers_hideAllAux t.collections h

theorem covers_pph {s t : Scene} (names : List String) (np : String) (h : Covers s t) :
    Covers s (preserve_parent_hierarchy t names np) := by
  refine covers_trans h ?_
  unfold preserve_parent_hierarchy
  lift_lets
  extract_lets objs roots rootNames
  split
  · exact covers_rebuild (covers_rfl t) rfl rfl
  · refine covers_foldl (covers_rebuild (covers_rfl t) rfl rfl) ?_
    intro acc n
    exact covers_updateObjs (covers_rfl acc) (fun _ => rfl)

theorem covers_addObjStep (col : Collection) (acc : Scene) (o : Obj) :
    Covers acc (addObjStep col acc o) := by
  unfold addObjStep
  lift_lets
  extract_lets live acc1
  split
  · exact covers_rfl acc
  · refine covers_linkToCol (s := acc) (t := acc1) ?_
    refine covers_rebuild_mapcols
      (g := fun pc => if pc.name == col.name then pc
        else { pc with objects := pc.objects.filter (fun m => m != o.name) })
      (covers_rfl acc) ?_ ?_ ?_
    · rfl
    · rfl
    · intro c
      dsimp only
      split
      · rfl
      · rfl

theorem covers_removeObjStep (col : Collection) (acc : Scene) (o : Obj) :
    Covers acc (removeObjStep col acc o) := by
  unfold removeObjStep
  lift_lets
  extract_lets a1 a2 live a3
  have h1 : Covers acc a1 := covers_rebuild (covers_rfl acc) rfl rfl
  have h2 : Covers acc a2 := covers_updateObjs h1 (fun _ => rfl)
  have h3 : Covers acc a3 := by
    show Covers acc (if live.objects.contains o.name then
      updateCols a2 col.name (fun c =>
        { c with objects := c.objects.filter (fun m => m != o.name) }) else a2)
    split
    · exact covers_updateCols h2 (fun _ => rfl)
    · exact h2
  split
  · exact h3
  · exact covers_rebuild h3 rfl rfl

theorem covers_mergeColStep (cname : String) (parent_pivot : Obj) (acc : Scene)
    (c : Collection) : Covers acc (mergeColStep cname parent_pivot acc c) := by
  unfold mergeColStep
  lift_lets
  extract_lets a1 a2
  have h1 : Covers acc a1 := by
    show Covers acc (if acc.sceneChildren.contains c.name then
      { acc with sceneChildren := acc.sceneChildren.filter (fun m => m != c.name) } else acc)
    split
    · exact covers_rebuild (covers_rfl acc) rfl rfl
    · exact covers_rfl acc
  have h2 : Covers acc a2 := covers_updateCols h1 (fun _ => rfl)
  split
  · exact h2
  · exact covers_updateObjs (covers_rebuild h2 rfl rfl) (fun _ => rfl)

theorem covers_unmergeColStep (parent_col : Collection) (acc : Scene) (c : Collection) :
    Covers acc (unmergeColStep parent_col acc c) := by
  unfold unmergeColStep
  lift_lets
  extract_lets a1 a2
  have h1 : Covers acc a1 := by
    show Covers acc
      (match get_collection_pivot acc c with
      | none => acc
      | some child_pivot =>
        if child_pivot.parent.isSome then
          let t := { acc with selected := [child_pivot.name],
                              activeObject := some child_pivot.name }
          updateObjs t child_pivot.name (fun o => { o with parent := none })
        else acc)
    split
    · exact covers_rfl acc
    · split
      · exact covers_updateObjs (covers_rebuild (covers_rfl acc) rfl rfl) (fun _ => rfl)
      · exact covers_rfl acc
  have h2 : Covers acc a2 := covers_updateCols h1 (fun _ => rfl)
  exact covers_rebuild h2 rfl rfl

theorem covers_restoreBackupStep (acc : Scene) (entry : String × Bool) :
    Covers acc (restoreBackupStep acc entry) := by
  rw [restoreBackupStep]
  split
  · exact covers_rfl acc
  · exact covers_updateCols (covers_rfl acc) (fun _ => rfl)

theorem covers_create_success (cname : String) (s : Scene) :
    Covers s (ez_create_success cname s) := by
  unfold ez_create_success
  lift_lets
  extract_lets objs s1 s2 center pivot s3 s4 s5 s6 s7 s8
  have c1 : Covers s s1 := covers_append_col (covers_rfl s) rfl rfl rfl
  have c2 : Covers s s2 := by
    refine covers_foldl c1 ?_
    intro acc o
    exact covers_linkToCol (covers_unlinkFromAll (covers_rfl acc))
  have c3 : Covers s s3 := covers_append_obj c2 rfl rfl
  have c35 : Covers s3 s5 :=
    covers_pph _ _ (covers_linkToCol (covers_rfl s3))
  have c5 : Covers s s5 := covers_trans c3 c35
  have hpiv : pivot.name ∈ objNames s5 := by
    apply c35.1
    show pivot.name ∈ objNames { s2 with objects := s2.objects ++ [pivot] }
    rw [objNames]
    simp
  have c6 : Covers s s6 := covers_trans c5 (covers_set_tag (covers_rfl s5) hpiv)
  have c7 : Covers s s7 := covers_hide_all c6
  have c8 : Covers s s8 := covers_updateObjs c7 (fun _ => rfl)
  exact covers_rebuild c8 rfl rfl

theorem covers_add_success (col : Collection) (pivot : Obj) (s : Scene) :
    Covers s (ez_add_success col pivot s) := by
  unfold ez_add_success
  lift_lets
  extract_lets selected_objects s1
  refine covers_pph _ _ ?_
  exact covers_foldl (covers_rfl s) (covers_addObjStep col)

theorem covers_remove_success (col : Collection) (s : Scene) :
    Covers s (ez_remove_success col s) := by
  unfold ez_remove_success
  lift_lets
  extract_lets pivotName selected_objects
  exact covers_foldl (covers_rfl s) (covers_removeObjStep col)

theorem covers_unlockClearChildren (children : List Obj) {s s1 : Scene}
    (h1 : Covers s s1) : Covers s (unlockClearChildren children s1) := by
  cases children with
  | nil => exact h1
  | cons c0 rest =>
    rw [unlockClearChildren]
    refine covers_foldl (covers_rebuild h1 rfl rfl) ?_
    intro acc o
    exact covers_updateObjs (covers_rfl acc) (fun _ => rfl)

theorem covers_unlock_success (col : Collection) (pivot : Obj) (s : Scene) :
    Covers s (ez_unlock_success col pivot s) := by
  unfold ez_unlock_success
  lift_lets
  extract_lets children s1 s2
  have h2 : Covers s s2 :=
    covers_unlockClearChildren children (covers_rebuild (covers_rfl s) rfl rfl)
  exact covers_rebuild h2 rfl rfl

theorem covers_lock_success (col : Collection) (pivot : Obj) (s : Scene) :
    Covers s (ez_lock_success col pivot s) := by
  unfold ez_lock_success
  lift_lets
  extract_lets collection_objects
  exact covers_pph _ _ (covers_rfl s)

theorem covers_solo_on (col : Collection) (s : Scene) : Covers s (solo_on col s) := by
  unfold solo_on
  lift_lets
  extract_lets backup s1
  refine covers_rebuild_mapcols (t := s1)
    (g := fun c => set_visibility c (c.name == col.name)) ?_ ?_ ?_ ?_
  · exact covers_rebuild (covers_rfl s) rfl rfl
  · rfl
  · rfl
  · intro c
    rfl

theorem covers_solo_off (backup : List (String × Bool)) (s : Scene) :
    Covers s (solo_off backup s) := by
  unfold solo_off
  lift_lets
  extract_lets s1
  exact covers_rebuild (covers_foldl (covers_rfl s) covers_restoreBackupStep) rfl rfl

theorem covers_mergeLinkNewParent {s t : Scene} (cname : String) (h : Covers s t) :
    Covers s (mergeLinkNewParent cname t) :=
  covers_append_col h rfl rfl rfl

theorem covers_merge_success (selected_collections : List Collection) (cname : String)
    (pivot_locations : List Vec3) (s1 : Scene) :
    Covers s1 (ez_merge_success selected_collections cname pivot_locations s1) := by
  unfold ez_merge_success
  lift_lets
  extract_lets parent_center parent_pivot s2 s3 s4 s5 s6 s7
  have c2 : Covers s1 s2 := covers_append_obj (covers_rfl s1) rfl rfl
  have c24 : Covers s2 s4 := by
    refine covers_foldl (covers_linkToCol (covers_rfl s2)) ?_
    intro acc c
    exact covers_mergeColStep cname parent_pivot acc c
  have c4 : Covers s1 s4 := covers_trans c2 c24
  have hpiv : parent_pivot.name ∈ objNames s4 := by
    apply c24.1
    show parent_pivot.name ∈ objNames { s1 with objects := s1.objects ++ [parent_pivot] }
    rw [objNames]
    simp
  have c5 : Covers s1 s5 :=
    covers_trans c4 (@covers_set_tag s4 s4 cname parent_pivot.name (covers_rfl s4) hpiv)
  have c7 : Covers s1 s7 := covers_updateObjs (covers_hide_all c5) (fun _ => rfl)
  exact covers_rebuild c7 rfl rfl

theorem covers_unmerge_success (parent_col : Collection) (s : Scene) :
    Covers s (ez_unmerge_success parent_col s) := by
  unfold ez_unmerge_success
  lift_lets
  extract_lets child_collections
  exact covers_foldl (covers_rfl s) (covers_unmergeColStep parent_col)

theorem covers_mergeAfterGuards (sc : List Collection) (cname : String) (s : Scene) :
    Covers s (mergeAfterGuards sc cname s).2 := by
  unfold mergeAfterGuards
  lift_lets
  extract_lets s1 pivot_locations
  have h1 : Covers s s1 := covers_mergeLinkNewParent cname (covers_rfl s)
  split
  · exact h1
  · exact covers_trans h1 (covers_merge_success sc cname pivot_locations s1)

/-- Every operator execution covers its input scene. -/
theorem covers_applyOp (op : Op) (s : Scene) : Covers s (applyOp op s).2 := by
  cases op with
  | create suf =>
    show Covers s (ez_create_collection suf s).2
    rw [ez_create_collection]
    split
    · exact covers_rfl s
    · split
      · exact covers_rfl s
      · exact covers_create_success _ s
  | add =>
    show Covers s (ez_add_to_collection s).2
    rw [ez_add_to_collection]
    split
    · exact covers_rfl s
    · split
      · exact covers_rfl s
      · split
        · exact covers_rfl s
        · exact covers_add_success _ _ s
  | remove =>
    show Covers s (ez_remove_from_collection s).2
    rw [ez_remove_from_collection]
    split
    · exact covers_rfl s
    · lift_lets
      extract_lets pivotName
      split
      · exact covers_rfl s
      · exact covers_remove_success _ s
  | lock =>
    show Covers s (ez_pivot_lock s).2
    rw [ez_pivot_lock]
    split
    · exact covers_rfl s
    · split
      · exact covers_rfl s
      · exact covers_lock_success _ _ s
  | unlock =>
    show Covers s (ez_pivot_unlock s).2
    rw [ez_pivot_unlock]
    split
    · exact covers_rfl s
    · split
      · exact covers_rfl s
      · exact covers_unlock_success _ _ s
  | solo =>
    show Covers s (ez_toggle_solo_collection s).2
    rw [ez_toggle_solo_collection]
    split
    · exact covers_rfl s
    · split
      · exact covers_solo_on _ s
      · exact covers_solo_off _ s
  | merge pname =>
    show Covers s (ez_merge_collections pname s).2
    rw [ez_merge_collections]
    split
    · exact covers_rfl s
    · split
      · exact covers_rfl s
      · exact covers_mergeAfterGuards _ _ s
  | unmerge =>
    show Covers s (ez_unmerge_collections s).2
    rw [ez_unmerge_collections]
    split
    · exact covers_rfl s
    · split
      · exact covers_rfl s
      · exact covers_unmerge_success _ s

/-- Claim C8: every operation (create, add, remove, lock, unlock, solo,
merge, unmerge) preserves the invariant that each collection carrying an
`ez_pivot` tag names an existing scene object. -/
theorem c8_pivot_tags_live (op : Op) (s : Scene) (h : PivotTagsLive s) :
    PivotTagsLive (applyOp op s).2 :=
  live_of_covers (covers_applyOp op s) h

/-- Witness for claim C8: a concrete live scene stays live across a
create execution. -/
theorem c8_pivot_tags_live_witness :
    PivotTagsLive sceneLive ∧ PivotTagsLive (applyOp (Op.create "X") sceneLive).2 :=
  ⟨by unfold PivotTagsLive; decide,
    c8_pivot_tags_live (Op.create "X") sceneLive (by unfold PivotTagsLive; decide)⟩

/-! ### Cancellation paths (claims C1 and C9) -/

theorem get_collection_pivot_mergeLink (cname : String) (s : Scene) (c : Collection) :
    get_collection_pivot (mergeLinkNewParent cname s) c = get_collection_pivot s c := rfl

theorem merge_result_no_pivots {pname : String} {s : Scene}
    (h1 : ¬(mergeSelCols s).length < 2) (h2 : ¬pyStrip pname = "")
    (h3 : ((mergeSelCols s).filterMap
      (fun c => (get_collection_pivot s c).map (fun p => p.worldLoc))).isEmpty = true) :
    ez_merge_collections pname s =
      (cancelledWith "ERROR" "No valid pivots found in selected EZCollections.",
        mergeLinkNewParent (generate_unique_name ("COL_" ++ pyStrip pname)
          (s.collections.map (fun c => c.name))) s) := by
  rw [ez_merge_collections, if_neg h1, if_neg h2, mergeAfterGuards]
  exact if_pos h3

theorem merge_result_success {pname : String} {s : Scene}
    (h1 : ¬(mergeSelCols s).length < 2) (h2 : ¬pyStrip pname = "")
    (h3 : ¬((mergeSelCols s).filterMap
      (fun c => (get_collection_pivot s c).map (fun p => p.worldLoc))).isEmpty = true) :
    (ez_merge_collections pname s).1 = finishedWith "INFO" "Merged EZCollections." := by
  rw [ez_merge_collections, if_neg h1, if_neg h2, mergeAfterGuards]
  exact congrArg Prod.fst (if_neg h3)

/-- Claim C1 (amended): a cancelled operator execution leaves the scene
unchanged, except for merge's pivot-location cancel path, which leaves
behind exactly the freshly created and scene-linked empty parent
collection. -/
theorem c1_cancel_preserves_state (op : Op) (s : Scene)
    (h : (applyOp op s).1.status = Status.CANCELLED) :
    (applyOp op s).2 = s ∨
      ∃ cname, (applyOp op s).2 =
        { s with collections := s.collections ++ [newDataCollection cname "COLOR_01"],
                 sceneChildren := s.sceneChildren ++ [cname] } := by
  cases op with
  | create suf =>
    simp only [applyOp] at h ⊢
    by_cases h1 : (selectedObjects s).isEmpty = true
    · left
      simp [ez_create_collection, h1]
    · by_cases h2 : pyStrip suf = ""
      · left
        simp [ez_create_collection, h1, h2]
      · exfalso
        simp [ez_create_collection, h1, h2, finishedWith] at h
  | add =>
    simp only [applyOp] at h ⊢
    cases hacol : activeEzCol s with
    | none =>
      left
      simp [ez_add_to_collection, hacol]
    | some col =>
      cases hpiv : get_collection_pivot s col with
      | none =>
        left
        simp [ez_add_to_collection, hacol, hpiv]
      | some pivot =>
        by_cases hsel :
            ((selectedObjects s).filter (fun o => o.name != pivot.name)).isEmpty = true
        · left
          simp [ez_add_to_collection, hacol, hpiv, hsel]
        · exfalso
          simp [ez_add_to_collection, hacol, hpiv, hsel, finishedWith] at h
  | remove =>
    simp only [applyOp] at h ⊢
    cases hacol : activeEzCol s with
    | none =>
      left
      simp [ez_remove_from_collection, hacol]
    | some col =>
      by_cases hsel : ((selectedObjects s).filter (fun o =>
          ((get_collection_pivot s col).map (fun p => p.name)) != some o.name)).isEmpty = true
      · left
        simp [ez_remove_from_collection, hacol, hsel]
      · exfalso
        simp [ez_remove_from_collection, hacol, hsel, finishedWith] at h
  | lock =>
    simp only [applyOp] at h ⊢
    cases hacol : activeEzCol s with
    | none =>
      left
      simp [ez_pivot_lock, hacol]
    | some col =>
      cases hpiv : get_collection_pivot s col with
      | none =>
        left
        simp [ez_pivot_lock, hacol, hpiv]
      | some pivot =>
        exfalso
        simp [ez_pivot_lock, hacol, hpiv, finishedWith] at h
  | unlock =>
    simp only [applyOp] at h ⊢
    cases hacol : activeEzCol s with
    | none =>
      left
      simp [ez_pivot_unlock, hacol]
    | some col =>
      cases hpiv : get_collection_pivot s col with
      | none =>
        left
        simp [ez_pivot_unlock, hacol, hpiv]
      | some pivot =>
        exfalso
        simp [ez_pivot_unlock, hacol, hpiv, finishedWith] at h
  | solo =>
    simp only [applyOp] at h ⊢
    cases hacol : activeEzCol s with
    | none =>
      left
      simp [ez_toggle_solo_collection, hacol]
    | some col =>
      exfalso
      cases hb : s.soloBackup with
      | none => simp [ez_toggle_solo_collection, hacol, hb, finishedWith] at h
      | some backup => simp [ez_toggle_solo_collection, hacol, hb, finishedWith] at h
  | merge pname =>
    simp only [applyOp] at h ⊢
    by_cases h1 : (mergeSelCols s).length < 2
    · left
      simp [ez_merge_collections, h1]
    · by_cases h2 : pyStrip pname = ""
      · left
        simp [ez_merge_collections, h1, h2]
      · by_cases h3 : ((mergeSelCols s).filterMap
            (fun c => (get_collection_pivot s c).map (fun p => p.worldLoc))).isEmpty = true
        · right
          refine ⟨generate_unique_name ("COL_" ++ pyStrip pname)
            (s.collections.map (fun c => c.name)), ?_⟩
          rw [merge_result_no_pivots h1 h2 h3]
          rfl
        · exfalso
          rw [merge_result_success h1 h2 h3] at h
          exact Status.noConfusion h
  | unmerge =>
    simp only [applyOp] at h ⊢
    cases hacol : activeEzCol s with
    | none =>
      left
      simp [ez_unmerge_collections, hacol]
    | some parent_col =>
      by_cases hch : ((parent_col.children.filterMap (findCol s)).filter
          is_ez_collection).isEmpty = true
      · left
        simp [ez_unmerge_collections, hacol, hch]
      · exfalso
        simp [ez_unmerge_collections, hacol, hch, finishedWith] at h

/-- Counterexample to claim C1 as stated: at `sceneGhosts` the merge
operator cancels after the pivot-location check, yet the scene is no
longer equal to the invocation-time scene (a collection was created and
linked). -/
theorem c1_counterexample :
    (applyOp (Op.merge "P") sceneGhosts).1.status = Status.CANCELLED ∧
      (applyOp (Op.merge "P") sceneGhosts).2 ≠ sceneGhosts := by
  decide

/-- Witness for amended claim C1: the add operator cancelled on
`sceneGhosts` (whose pivot tag is dangling), leaving the scene as it
was. -/
theorem c1_cancel_preserves_state_witness :
    (applyOp Op.add sceneGhosts).1.status = Status.CANCELLED ∧
      ((applyOp Op.add sceneGhosts).2 = sceneGhosts ∨
        ∃ cname, (applyOp Op.add sceneGhosts).2 =
          { sceneGhosts with
              collections := sceneGhosts.collections ++ [newDataCollection cname "COLOR_01"],
              sceneChildren := sceneGhosts.sceneChildren ++ [cname] }) :=
  ⟨by decide, c1_cancel_preserves_state Op.add sceneGhosts (by decide)⟩

/-- Claim C9 (amended): an operator execution returns a cancelled status
exactly when the implemented cancellation condition holds (the claim's
case list extended with the pivot-not-found cancels of add, lock and
unlock, merge's blank-name and no-valid-pivot cancels, and unmerge's
no-child-EZCollection cancel), and every cancellation reports through
the status-message mechanism with an ERROR or WARNING level. -/
theorem c9_cancel_iff (op : Op) (s : Scene) :
    ((applyOp op s).1.status = Status.CANCELLED ↔ cancelCondB op s = true) ∧
      ((applyOp op s).1.status = Status.CANCELLED →
        (applyOp op s).1.level = "ERROR" ∨ (applyOp op s).1.level = "WARNING") := by
  cases op with
  | create suf =>
    simp only [applyOp]
    by_cases h1 : (selectedObjects s).isEmpty = true <;>
      by_cases h2 : pyStrip suf = "" <;>
        simp [ez_create_collection, cancelCondB, h1, h2, cancelledWith, finishedWith]
  | add =>
    simp only [applyOp]
    cases hacol : activeEzCol s with
    | none => simp [ez_add_to_collection, cancelCondB, hacol, cancelledWith]
    | some col =>
      cases hpiv : get_collection_pivot s col with
      | none => simp [ez_add_to_collection, cancelCondB, hacol, hpiv, cancelledWith]
      | some pivot =>
        by_cases hsel :
            ((selectedObjects s).filter (fun o => o.name != pivot.name)).isEmpty = true <;>
          simp [ez_add_to_collection, cancelCondB, hacol, hpiv, hsel,
            cancelledWith, finishedWith]
  | remove =>
    simp only [applyOp]
    cases hacol : activeEzCol s with
    | none => simp [ez_remove_from_collection, cancelCondB, hacol, cancelledWith]
    | some col =>
      by_cases hsel : ((selectedObjects s).filter (fun o =>
          ((get_collection_pivot s col).map (fun p => p.name)) != some o.name)).isEmpty = true <;>
        simp [ez_remove_from_collection, cancelCondB, hacol, hsel,
          cancelledWith, finishedWith]
  | lock =>
    simp only [applyOp]
    cases hacol : activeEzCol s with
    | none => simp [ez_pivot_lock, cancelCondB, hacol, cancelledWith]
    | some col =>
      cases hpiv : get_collection_pivot s col with
      | none => simp [ez_pivot_lock, cancelCondB, hacol, hpiv, cancelledWith]
      | some pivot =>
        simp [ez_pivot_lock, cancelCondB, hacol, hpiv, cancelledWith, finishedWith]
  | unlock =>
    simp only [applyOp]
    cases hacol : activeEzCol s with
    | none => simp [ez_pivot_unlock, cancelCondB, hacol, cancelledWith]
    | some col =>
      cases hpiv : get_collection_pivot s col with
      | none => simp [ez_pivot_unlock, cancelCondB, hacol, hpiv, cancelledWith]
      | some pivot =>
        simp [ez_pivot_unlock, cancelCondB, hacol, hpiv, cancelledWith, finishedWith]
  | solo =>
    simp only [applyOp]
    cases hacol : activeEzCol s with
    | none => simp [ez_toggle_solo_collection, cancelCondB, hacol, cancelledWith]
    | some col =>
      cases hb : s.soloBackup with
      | none =>
        simp [ez_toggle_solo_collection, cancelCondB, hacol, hb, finishedWith]
      | some backup =>
        simp [ez_toggle_solo_collection, cancelCondB, hacol, hb, finishedWith]
  | merge pname =>
    simp only [applyOp]
    by_cases h1 : (mergeSelCols s).length < 2
    · simp [ez_merge_collections, cancelCondB, h1, cancelledWith]
    · by_cases h2 : pyStrip pname = ""
      · simp [ez_merge_collections, cancelCondB, h1, h2, cancelledWith]
      · by_cases h3 : ((mergeSelCols s).filterMap
            (fun c => (get_collection_pivot s c).map (fun p => p.worldLoc))).isEmpty = true
        · rw [merge_result_no_pivots h1 h2 h3]
          simp [cancelCondB, h1, h2, h3, cancelledWith]
        · rw [merge_result_success h1 h2 h3]
          simp [cancelCondB, h1, h2, h3, finishedWith]
  | unmerge =>
    simp only [applyOp]
    cases hacol : activeEzCol s with
    | none => simp [ez_unmerge_collections, cancelCondB, hacol, cancelledWith]
    | some parent_col =>
      by_cases hch : ((parent_col.children.filterMap (findCol s)).filter
          is_ez_collection).isEmpty = true <;>
        simp [ez_unmerge_collections, cancelCondB, hacol, hch, cancelledWith, finishedWith]

/-- Counterexample to claim C9 as stated: merging two selected
EZCollections with a blank parent name cancels, although none of the
claim's listed cases holds there. -/
theorem c9_counterexample :
    (applyOp (Op.merge "") sceneAB).1.status = Status.CANCELLED ∧
      listedCondB (Op.merge "") sceneAB = false := by
  decide

/-! ### Solo mode (claims C2 and C3) -/

theorem activeEzCol_eq_some {s : Scene} {c : Collection} (h : activeEzCol s = some c) :
    ∃ n, s.activeCollection = some n ∧ findCol s n = some c ∧
      is_ez_collection c = true := by
  cases hn : s.activeCollection with
  | none =>
    simp [activeEzCol, hn] at h
  | some n =>
    cases hf : findCol s n with
    | none =>
      simp [activeEzCol, hn, hf] at h
    | some c' =>
      by_cases hez : is_ez_collection c' = true
      · simp only [activeEzCol, hn, hf, hez, if_true] at h
        cases h
        exact ⟨n, rfl, hf, hez⟩
      · simp [activeEzCol, hn, hf, hez] at h

theorem activeEzCol_mem {s : Scene} {c : Collection} (h : activeEzCol s = some c) :
    c ∈ s.collections := by
  obtain ⟨n, _, hf, _⟩ := activeEzCol_eq_some h
  exact List.mem_of_find?_eq_some hf

theorem solo_on_collections (col : Collection) (s : Scene) :
    (solo_on col s).collections =
      s.collections.map (fun c => set_visibility c (c.name == col.name)) := rfl

/-- Claim C3: switching solo on with an active EZCollection and no solo
backup leaves exactly the active collection visible; every other
collection has both visibility flags set. -/
theorem c3_solo_on_isolates (s : Scene) (c0 : Collection)
    (hact : activeEzCol s = some c0) (hb : s.soloBackup = none) :
    (∃ c' ∈ (applyOp Op.solo s).2.collections, c'.name = c0.name) ∧
      ∀ c' ∈ (applyOp Op.solo s).2.collections,
        (c'.name = c0.name → c'.hide_viewport = false ∧ c'.hide_render = false) ∧
        (c'.name ≠ c0.name → c'.hide_viewport = true ∧ c'.hide_render = true) := by
  have happly : applyOp Op.solo s = (finishedWith "INFO" "Solo view ON.", solo_on c0 s) := by
    simp only [applyOp, ez_toggle_solo_collection, hact, hb]
  rw [happly]
  constructor
  · exact ⟨set_visibility c0 (c0.name == c0.name),
      List.mem_map_of_mem _ (activeEzCol_mem hact), rfl⟩
  · intro c' hc'
    rw [solo_on_collections] at hc'
    obtain ⟨c, _, rfl⟩ := List.mem_map.mp hc'
    constructor
    · intro hname
      have : (c.name == c0.name) = true := beq_iff_eq.mpr hname
      simp [set_visibility, this]
    · intro hname
      have : (c.name == c0.name) = false := by
        simpa using hname
      simp [set_visibility, this]

/-- Witness for claim C3 at the concrete scene `sceneAB` (active
EZCollection `A`, no backup). -/
theorem c3_solo_on_isolates_witness :
    (∃ c' ∈ (applyOp Op.solo sceneAB).2.collections, c'.name = colA.name) ∧
      ∀ c' ∈ (applyOp Op.solo sceneAB).2.collections,
        (c'.name = colA.name → c'.hide_viewport = false ∧ c'.hide_render = false) ∧
        (c'.name ≠ colA.name → c'.hide_viewport = true ∧ c'.hide_render = true) :=
  c3_solo_on_isolates sceneAB colA (by decide) (by decide)

/-- The first collection of the backup pair list found by name, for a
collection list with distinct names. -/
theorem find?_backup_pairs {cols : List Collection}
    (hnd : (cols.map (fun c => c.name)).Nodup) {c : Collection} (hc : c ∈ cols) :
    (cols.map (fun c => (c.name, c.hide_viewport))).find? (fun e => e.1 == c.name) =
      some (c.name, c.hide_viewport) := by
  induction cols with
  | nil => cases hc
  | cons c1 rest ih =>
    rw [List.map_cons] at hnd ⊢
    rcases List.mem_cons.mp hc with rfl | hmem
    · rw [List.find?_cons_of_pos _ (by simp)]
    · have hne : c1.name ≠ c.name := by
        intro he
        have hmm : c.name ∈ rest.map (fun c => c.name) :=
          List.mem_map_of_mem (fun c => c.name) hmem
        rw [← he] at hmm
        exact (List.nodup_cons.mp hnd).1 hmm
      rw [List.find?_cons_of_neg _ (by simpa using hne),
        ih (List.nodup_cons.mp hnd).2 hmem]

/-- Characterization of the solo restore loop: with distinct backup
keys, every collection's viewport flag is set to its backed-up value. -/
theorem restore_foldl_collections :
    ∀ (entries : List (String × Bool)) (t : Scene),
      (entries.map (fun e => e.1)).Nodup →
      (entries.foldl restoreBackupStep t).collections =
        t.collections.map (fun c =>
          match entries.find? (fun e => e.1 == c.name) with
          | some e => { c with hide_viewport := e.2 }
          | none => c) := by
  intro entries
  induction entries with
  | nil =>
    intro t _
    simp
  | cons e rest ih =>
    intro t hnd
    rw [List.foldl_cons]
    rw [List.map_cons] at hnd
    have hnd' := (List.nodup_cons.mp hnd).2
    have hkey : e.1 ∉ rest.map (fun e => e.1) := (List.nodup_cons.mp hnd).1
    rw [restoreBackupStep]
    cases hfc : findCol t e.1 with
    | none =>
      rw [ih t hnd']
      apply List.map_congr_left
      intro c hc
      have hne : (e.1 == c.name) = false := by
        rw [findCol, List.find?_eq_none] at hfc
        have hcc := hfc c hc
        simp only [beq_iff_eq] at hcc
        exact beq_eq_false_iff_ne.mpr (Ne.symm hcc)
      rw [List.find?_cons_of_neg _ (by simp [hne])]
    | some cfound =>
      rw [ih _ hnd']
      show (t.collections.map (fun c =>
          if c.name == e.1 then { c with hide_viewport := e.2 } else c)).map _ = _
      rw [List.map_map]
      apply List.map_congr_left
      intro c _
      by_cases hcn : c.name = e.1
      · have hb1 : (c.name == e.1) = true := beq_iff_eq.mpr hcn
        have hb2 : (e.1 == c.name) = true := beq_iff_eq.mpr hcn.symm
        have hrest : rest.find? (fun e' => e'.1 == c.name) = none := by
          rw [List.find?_eq_none]
          intro e' he'
          simp only [beq_iff_eq]
          intro heq
          apply hkey
          have hmm : e'.1 ∈ rest.map (fun e => e.1) :=
            List.mem_map_of_mem (fun e => e.1) he'
          rw [heq, hcn] at hmm
          exact hmm
        simp only [Function.comp, hb1, if_pos]
        rw [List.find?_cons_of_pos _ (by simp [hb2]), hrest]
      · have hb1 : (c.name == e.1) = false := by simpa using hcn
        have hb2 : (e.1 == c.name) = false := by simpa using (Ne.symm hcn)
        simp only [Function.comp, hb1]
        rw [if_neg (by simp), List.find?_cons_of_neg _ (by simp [hb2])]

/-- Counterexample to claim C2 as stated: collection `B` exists at both
toggles, its render-hide flag was `false` before solo-on, yet after
solo-off it is `true` (only viewport flags are backed up and restored). -/
theorem c2_counterexample :
    ((findCol (applyOp Op.solo (applyOp Op.solo sceneAB).2).2 "B").map
        (fun c => c.hide_render) = some true) ∧
      ((findCol sceneAB "B").map (fun c => c.hide_render) = some false) := by
  decide

/-- Claim C2 (amended): toggling solo twice restores every collection's
viewport-hide flag exactly and removes the backup key, but the
render-hide flag is not restored: it ends up cleared on the solo'd
collection and set on every other collection. -/
theorem c2_solo_twice (s : Scene) (c0 : Collection)
    (hact : activeEzCol s = some c0) (hb : s.soloBackup = none)
    (hnd : (s.collections.map (fun c => c.name)).Nodup) :
    (applyOp Op.solo (applyOp Op.solo s).2).2.soloBackup = none ∧
      (applyOp Op.solo (applyOp Op.solo s).2).2.collections =
        s.collections.map (fun c => { c with hide_render := !(c.name == c0.name) }) := by
  obtain ⟨n, hn, hf, hez⟩ := activeEzCol_eq_some hact
  have happly1 : applyOp Op.solo s = (finishedWith "INFO" "Solo view ON.", solo_on c0 s) := by
    simp only [applyOp, ez_toggle_solo_collection, hact, hb]
  have hac : (solo_on c0 s).activeCollection = some n := hn
  have hfc : findCol (solo_on c0 s) n =
      some (set_visibility c0 (c0.name == c0.name)) := by
    show ((solo_on c0 s).collections.find? (fun c => c.name == n)) = _
    rw [solo_on_collections, List.find?_map]
    have hpred : ((fun c : Collection => c.name == n) ∘
        (fun c => set_visibility c (c.name == c0.name))) =
          (fun c : Collection => c.name == n) := by
      funext c
      rfl
    rw [hpred]
    have hf' : List.find? (fun c : Collection => c.name == n) s.collections = some c0 := hf
    rw [hf']
    rfl
  have hact2 : activeEzCol (solo_on c0 s) =
      some (set_visibility c0 (c0.name == c0.name)) := by
    have hez2 : is_ez_collection (set_visibility c0 (c0.name == c0.name)) = true := hez
    have hez3 : is_ez_collection (set_visibility c0 true) = true := hez
    simp [activeEzCol, hac, hfc, hez2, hez3]
  have hb2 : (solo_on c0 s).soloBackup =
      some (s.collections.map (fun c => (c.name, c.hide_viewport))) := rfl
  have happly2 : applyOp Op.solo (solo_on c0 s) =
      (finishedWith "INFO" "Solo view OFF. Restored previous state.",
        solo_off (s.collections.map (fun c => (c.name, c.hide_viewport))) (solo_on c0 s)) := by
    simp only [applyOp, ez_toggle_solo_collection, hact2, hb2]
  rw [happly1]
  show ((applyOp Op.solo (solo_on c0 s)).2.soloBackup = none ∧ _)
  rw [happly2]
  constructor
  · rfl
  · show (solo_off _ (solo_on c0 s)).collections = _
    have hkeys : ((s.collections.map (fun c => (c.name, c.hide_viewport))).map
        (fun e => e.1)).Nodup := by
      rw [List.map_map]
      exact hnd
    show ((s.collections.map (fun c => (c.name, c.hide_viewport))).foldl
      restoreBackupStep (solo_on c0 s)).collections = _
    rw [restore_foldl_collections _ _ hkeys, solo_on_collections, List.map_map]
    apply List.map_congr_left
    intro c hc
    have hfind := find?_backup_pairs hnd hc
    show (match (s.collections.map (fun c => (c.name, c.hide_viewport))).find?
        (fun e => e.1 == c.name) with
      | some e => { set_visibility c (c.name == c0.name) with hide_viewport := e.2 }
      | none => set_visibility c (c.name == c0.name)) = _
    rw [hfind]
    rfl

/-- Witness for amended claim C2 at the concrete scene `sceneAB`. -/
theorem c2_solo_twice_witness :
    (applyOp Op.solo (applyOp Op.solo sceneAB).2).2.soloBackup = none ∧
      (applyOp Op.solo (applyOp Op.solo sceneAB).2).2.collections =
        sceneAB.collections.map (fun c => { c with hide_render := !(c.name == colA.name) }) :=
  c2_solo_twice sceneAB colA (by decide) (by decide) (by decide)

/-! ### Create pivot centroid (claim C5) -/

theorem vec3_add_x (a b : Vec3) : (a + b).x = a.x + b.x := rfl
theorem vec3_add_y (a b : Vec3) : (a + b).y = a.y + b.y := rfl
theorem vec3_add_z (a b : Vec3) : (a + b).z = a.z + b.z := rfl

theorem foldl_add_worldLoc_x :
    ∀ (l : List Obj) (a : Vec3),
      (l.foldl (fun acc o => acc + o.worldLoc) a).x =
        a.x + (l.map (fun o => o.worldLoc.x)).sum := by
  intro l
  induction l with
  | nil => intro a; simp
  | cons o rest ih =>
    intro a
    rw [List.foldl_cons, ih, List.map_cons, List.sum_cons, vec3_add_x]
    ring

theorem foldl_add_worldLoc_y :
    ∀ (l : List Obj) (a : Vec3),
      (l.foldl (fun acc o => acc + o.worldLoc) a).y =
        a.y + (l.map (fun o => o.worldLoc.y)).sum := by
  intro l
  induction l with
  | nil => intro a; simp
  | cons o rest ih =>
    intro a
    rw [List.foldl_cons, ih, List.map_cons, List.sum_cons, vec3_add_y]
    ring

theorem foldl_add_worldLoc_z :
    ∀ (l : List Obj) (a : Vec3),
      (l.foldl (fun acc o => acc + o.worldLoc) a).z =
        a.z + (l.map (fun o => o.worldLoc.z)).sum := by
  intro l
  induction l with
  | nil => intro a; simp
  | cons o rest ih =>
    intro a
    rw [List.foldl_cons, ih, List.map_cons, List.sum_cons, vec3_add_z]
    ring

/-- The code's left-fold centroid equals the specification-side
component-wise mean. -/
theorem sumLocs_divNat_eq_meanLoc (objs : List Obj) :
    (sumLocs objs).divNat objs.length = meanLoc objs := by
  rw [sumLocs, meanLoc, Vec3.divNat]
  have hx := foldl_add_worldLoc_x objs Vec3.zero
  have hy := foldl_add_worldLoc_y objs Vec3.zero
  have hz := foldl_add_worldLoc_z objs Vec3.zero
  rw [show Vec3.zero.x = 0 from rfl] at hx
  rw [show Vec3.zero.y = 0 from rfl] at hy
  rw [show Vec3.zero.z = 0 from rfl] at hz
  rw [zero_add] at hx hy hz
  rw [hx, hy, hz]

theorem locOf_congr {t t' : Scene} (h : t'.objects = t.objects) (k : String) :
    locOf t' k = locOf t k := by
  rw [locOf, locOf, findObj, findObj, h]

theorem locOf_updateObjs {t : Scene} {m : String} {f : Obj → Obj}
    (hf : ∀ o, (f o).name = o.name ∧ (f o).worldLoc = o.worldLoc) (k : String) :
    locOf (updateObjs t m f) k = locOf t k := by
  rw [locOf, locOf, findObj, findObj]
  show (List.find? (fun o => o.name == k)
    (t.objects.map (fun o => if o.name == m then f o else o))).map _ = _
  rw [List.find?_map]
  have hpred : ((fun o : Obj => o.name == k) ∘ (fun o => if o.name == m then f o else o)) =
      (fun o : Obj => o.name == k) := by
    funext o
    simp only [Function.comp]
    split
    · rw [(hf o).1]
    · rfl
  rw [hpred, Option.map_map]
  have hfun : ((fun o : Obj => o.worldLoc) ∘ (fun o => if o.name == m then f o else o)) =
      (fun o : Obj => o.worldLoc) := by
    funext o
    simp only [Function.comp]
    split
    · exact (hf o).2
    · rfl
  rw [hfun]

theorem locOf_hidePivotStep (t : Scene) (c : Collection) (k : String) :
    locOf (hidePivotStep t c) k = locOf t k := by
  rw [hidePivotStep]
  split
  · rfl
  · split
    · rfl
    · exact locOf_updateObjs (f := fun o => { o with hide_viewport := true })
        (fun o => ⟨rfl, rfl⟩) k

theorem locOf_hideAllAux (cols : List Collection) (t : Scene) (k : String) :
    locOf (hideAllPivotsAux cols t) k = locOf t k := by
  induction cols generalizing t with
  | nil => rfl
  | cons c rest ih =>
    rw [hideAllPivotsAux, ih, locOf_hidePivotStep]

theorem locOf_foldl {β : Type} (l : List β) (step : Scene → β → Scene) (init : Scene)
    (k : String) (hstep : ∀ acc b, locOf (step acc b) k = locOf acc k) :
    locOf (l.foldl step init) k = locOf init k := by
  induction l generalizing init with
  | nil => rfl
  | cons b rest ih => rw [List.foldl_cons, ih, hstep]

theorem locOf_pph (t : Scene) (names : List String) (np : String) (k : String) :
    locOf (preserve_parent_hierarchy t names np) k = locOf t k := by
  unfold preserve_parent_hierarchy
  lift_lets
  extract_lets objs roots rootNames
  split
  · exact locOf_congr rfl k
  · extract_lets s1 s2
    rw [locOf_foldl _ _ _ _ (fun acc b =>
      locOf_updateObjs (f := fun o => { o with parent := some np }) (fun o => ⟨rfl, rfl⟩) k)]
    exact locOf_congr rfl k

theorem create_objects_foldl (cname : String) (objs : List Obj) :
    ∀ (t : Scene),
      (objs.foldl (fun acc o => linkToCol (unlinkFromAll acc o.name) cname o.name) t).objects =
        t.objects := by
  induction objs with
  | nil => intro t; rfl
  | cons o rest ih =>
    intro t
    rw [List.foldl_cons, ih]
    rfl

/-- Tracing the fresh pivot through the create success path: its final
world location is the left-fold centroid of the selected objects. -/
theorem create_success_locOf (cname : String) (s : Scene)
    (hfresh : ∀ o ∈ s.objects, o.name ≠ pivotObjName cname) :
    locOf (ez_create_success cname s) (pivotObjName cname) =
      some ((sumLocs (selectedObjects s)).divNat (selectedObjects s).length) := by
  unfold ez_create_success
  lift_lets
  extract_lets objs s1 s2 center pivot s3 s4 s5 s6 s7 s8
  have h3 : locOf s3 (pivotObjName cname) = some center := by
    show locOf { s2 with objects := s2.objects ++ [pivot] } _ = _
    rw [locOf, findObj]
    show ((s2.objects ++ [pivot]).find? (fun o => o.name == pivotObjName cname)).map _ = _
    have h2 : s2.objects = s.objects := by
      show (objs.foldl (fun acc o => linkToCol (unlinkFromAll acc o.name) cname o.name)
        s1).objects = s.objects
      rw [create_objects_foldl]
    rw [h2, List.find?_append]
    have hnone : s.objects.find? (fun o => o.name == pivotObjName cname) = none := by
      rw [List.find?_eq_none]
      intro o ho
      simpa using hfresh o ho
    rw [hnone, Option.none_or]
    rw [List.find?_cons_of_pos (p := fun o : Obj => o.name == pivotObjName cname) _
      (by show (pivotObjName cname == pivotObjName cname) = true
          simp)]
    rfl
  have h4 : locOf s4 (pivotObjName cname) = some center := by
    rw [← h3]
    exact locOf_congr rfl _
  have h5 : locOf s5 (pivotObjName cname) = some center := by
    show locOf (preserve_parent_hierarchy s4 (objs.map (fun o => o.name)) pivot.name) _ = _
    rw [locOf_pph, h4]
  have h6 : locOf s6 (pivotObjName cname) = some center := by
    rw [← h5]
    exact locOf_congr rfl _
  have h7 : locOf s7 (pivotObjName cname) = some center := by
    show locOf (hide_all_pivots s6) _ = _
    rw [hide_all_pivots, locOf_hideAllAux, h6]
  have h8 : locOf s8 (pivotObjName cname) = some center := by
    show locOf (updateObjs s7 pivot.name (fun o => { o with hide_viewport := false })) _ = _
    rw [locOf_updateObjs (f := fun o => { o with hide_viewport := false })
      (fun o => ⟨rfl, rfl⟩), h7]
  show locOf { s8 with selected := [pivot.name], activeObject := some pivot.name }
    (pivotObjName cname) = some center
  exact (locOf_congr (t := s8) rfl (pivotObjName cname)).trans h8

/-- Claim C5: on a non-empty selection (and a non-blank name, so that
the operator finishes), the created pivot object's world location is
the component-wise arithmetic mean of the selected objects' world-space
translations.  The freshness hypothesis mirrors the host's guarantee
that `bpy.data.objects.new` returns an object under a new name. -/
theorem c5_create_pivot_centroid (suffix : String) (s : Scene)
    (hsel : ¬(selectedObjects s).isEmpty = true)
    (hsuf : ¬ pyStrip suffix = "")
    (hfresh : ∀ o ∈ s.objects,
      o.name ≠ pivotObjName (generate_unique_name ("COL_" ++ pyStrip suffix)
        (s.collections.map (fun c => c.name)))) :
    (applyOp (Op.create suffix) s).1.status = Status.FINISHED ∧
      ∃ pv, findObj (applyOp (Op.create suffix) s).2
          (pivotObjName (generate_unique_name ("COL_" ++ pyStrip suffix)
            (s.collections.map (fun c => c.name)))) = some pv ∧
        pv.worldLoc = meanLoc (selectedObjects s) := by
  have happly : applyOp (Op.create suffix) s =
      (finishedWith "INFO" ("Collection " ++
          generate_unique_name ("COL_" ++ pyStrip suffix)
            (s.collections.map (fun c => c.name)) ++ " created with smart pivot."),
        ez_create_success (generate_unique_name ("COL_" ++ pyStrip suffix)
          (s.collections.map (fun c => c.name))) s) := by
    show ez_create_collection suffix s = _
    rw [ez_create_collection, if_neg hsel, if_neg hsuf]
  rw [happly]
  refine ⟨rfl, ?_⟩
  have hloc := create_success_locOf
    (generate_unique_name ("COL_" ++ pyStrip suffix) (s.collections.map (fun c => c.name)))
    s hfresh
  rw [locOf] at hloc
  obtain ⟨pv, hpv, hl⟩ := Option.map_eq_some'.mp hloc
  refine ⟨pv, hpv, ?_⟩
  rw [hl, sumLocs_divNat_eq_meanLoc]

/-- Witness for claim C5 at `sceneAB` with suffix "New": the pivot sits
at the mean of (1,2,3) and (3,4,5). -/
theorem c5_create_pivot_centroid_witness :
    (applyOp (Op.create "New") sceneAB).1.status = Status.FINISHED ∧
      ∃ pv, findObj (applyOp (Op.create "New") sceneAB).2
          (pivotObjName (generate_unique_name ("COL_" ++ pyStrip "New")
            (sceneAB.collections.map (fun c => c.name)))) = some pv ∧
        pv.worldLoc = meanLoc (selectedObjects sceneAB) :=
  c5_create_pivot_centroid "New" sceneAB (by decide) (by decide) (by decide)

/-! ### Collection hierarchy (claim C4) -/

/-- Unfolding one collection of a `collectFold`. -/
theorem collectFold_cons (step : Collection → List Collection)
    (cond : Collection → Bool) (p : Collection) (rest init : List Collection) :
    collectFold step cond (p :: rest) init =
      collectFold step cond rest (if cond p then init ++ p :: step p else init) := by
  rw [collectFold, collectFold, List.foldl_cons]

/-- `collectFold` only ever appends: the initial accumulator survives. -/
theorem mem_collectFold_of_mem_init {step : Collection → List Collection}
    {cond : Collection → Bool} {x : Collection} :
    ∀ (cols : List Collection) {init : List Collection}, x ∈ init →
      x ∈ collectFold step cond cols init := by
  intro cols
  induction cols with
  | nil => intro init h; exact h
  | cons p rest ih =>
    intro init h
    rw [collectFold_cons]
    apply ih
    split
    · exact List.mem_append_left _ h
    · exact h

/-- A collection of `cols` passing the guard contributes itself and its
step to the result of `collectFold`. -/
theorem mem_collectFold_of_cond {step : Collection → List Collection}
    {cond : Collection → Bool} {p x : Collection}
    (hc : cond p = true) (hx : x ∈ p :: step p) :
    ∀ (cols : List Collection), p ∈ cols →
      ∀ init, x ∈ collectFold step cond cols init := by
  intro cols
  induction cols with
  | nil => intro hp; exact absurd hp (List.not_mem_nil p)
  | cons a rest ih =>
    intro hp init
    rw [collectFold_cons]
    rcases List.mem_cons.mp hp with h | h
    · subst h
      rw [if_pos hc]
      exact mem_collectFold_of_mem_init rest (List.mem_append_right _ hx)
    · exact ih h _

/-- With fuel at least the gap between the total collection count and
the rank of the start, `find_parent_collections` reaches every ancestor
along a chain of EZCollections. -/
theorem ezAncestor_mem_find_parent {cols : List Collection} {rank : String → Nat}
    (hrank : ∀ p ∈ cols, ∀ cn ∈ p.children, rank cn < rank p.name)
    (hbound : ∀ p ∈ cols, rank p.name < cols.length)
    {c q : Collection} (h : EzAncestor cols c q) :
    ∀ fuel : Nat, cols.length - rank c.name ≤ fuel →
      q ∈ find_parent_collections cols fuel c.name := by
  induction h with
  | @parent c p hp hch hez =>
    intro fuel hfuel
    have hchm : c.name ∈ p.children := by simpa using hch
    have h1 : rank c.name < rank p.name := hrank p hp c.name hchm
    have h2 : rank p.name < cols.length := hbound p hp
    cases fuel with
    | zero => omega
    | succ f =>
      rw [find_parent_collections]
      exact mem_collectFold_of_cond
        (by rw [Bool.and_eq_true]; exact ⟨hch, hez⟩)
        (List.mem_cons_self p _) cols hp []
  | @grand c p q hp hch hez hanc ih =>
    intro fuel hfuel
    have hchm : c.name ∈ p.children := by simpa using hch
    have h1 : rank c.name < rank p.name := hrank p hp c.name hchm
    have h2 : rank p.name < cols.length := hbound p hp
    cases fuel with
    | zero => omega
    | succ f =>
      rw [find_parent_collections]
      refine mem_collectFold_of_cond
        (by rw [Bool.and_eq_true]; exact ⟨hch, hez⟩)
        (List.mem_cons_of_mem _ ?_) cols hp []
      exact ih f (by omega)

/-- Counterexample to claim C4 as stated: in the acyclic scene
`sceneChain`, `G` is an EZCollection and a transitive parent-chain
ancestor of `C` (the EZCollection directly containing `o1`), but the
chain passes through the non-EZ collection `P`, and `G` is missing from
the computed hierarchy of `o1`. -/
theorem c4_counterexample :
    (colC ∈ usersCollectionsOf sceneChain.collections "o1" ∧
        is_ez_collection colC = true ∧
        AcyclicCols sceneChain.collections ∧
        CollAncestor sceneChain.collections colC colG ∧
        is_ez_collection colG = true) ∧
      colG ∉ get_collection_hierarchy sceneChain "o1" := by
  refine ⟨⟨by decide, by decide, ?_, ?_, by decide⟩, by decide⟩
  · exact ⟨fun n => if n = "C" then 0 else if n = "P" then 1 else 2,
      by decide, by decide⟩
  · exact CollAncestor.grand (p := colP) (by decide) (by decide)
      (CollAncestor.parent (by decide) (by decide))

/-- Claim C4 (amended): on an acyclic collection-parent relation,
`get_collection_hierarchy` contains every EZCollection directly
containing the object, and every ancestor of such a collection that is
reachable through a parent chain consisting entirely of EZCollections.
Ancestors reachable only through non-EZ intermediates are not returned
(the recursion declines to recurse through a non-EZ parent). -/
theorem c4_hierarchy_ez_chain (s : Scene) (objName : String) (c : Collection)
    (hacyc : AcyclicCols s.collections)
    (hmem : c ∈ usersCollectionsOf s.collections objName)
    (hez : is_ez_collection c = true) :
    c ∈ get_collection_hierarchy s objName ∧
      ∀ q, EzAncestor s.collections c q → q ∈ get_collection_hierarchy s objName := by
  obtain ⟨rank, hrank, hbound⟩ := hacyc
  constructor
  · rw [get_collection_hierarchy, hierarchyOf]
    exact mem_collectFold_of_cond hez (List.mem_cons_self c _)
      (usersCollectionsOf s.collections objName) hmem []
  · intro q hq
    rw [get_collection_hierarchy, hierarchyOf]
    refine mem_collectFold_of_cond hez (List.mem_cons_of_mem _ ?_)
      (usersCollectionsOf s.collections objName) hmem []
    exact ezAncestor_mem_find_parent hrank hbound hq s.collections.length
      (Nat.sub_le _ _)

/-- Witness for claim C4 at `sceneChain`: `C` directly contains `o1`
and appears in the hierarchy together with all its EZ-chain ancestors. -/
theorem c4_hierarchy_ez_chain_witness :
    colC ∈ get_collection_hierarchy sceneChain "o1" ∧
      ∀ q, EzAncestor sceneChain.collections colC q →
        q ∈ get_collection_hierarchy sceneChain "o1" :=
  c4_hierarchy_ez_chain sceneChain "o1" colC
    ⟨fun n => if n = "C" then 0 else if n = "P" then 1 else 2, by decide, by decide⟩
    (by decide) (by decide)

/-! ### Timer frame property (claim C7) -/

/-- Claim C7: when the polled selection name set equals the one recorded
at the previous poll, the timer callback returns its state unchanged: no
visibility flag of any object or collection changes, and no other scene
state changes. -/
theorem c7_timer_noop (ts : TimerState)
    (h : sameSet (currentSelectedNames ts.scene) ts.lastSelected = true) :
    selection_timer ts = ts := by
  simp [selection_timer, h]

/-- Witness for claim C7: a scene whose selection set matches the
recorded one up to order; the timer leaves the state untouched. -/
theorem c7_timer_noop_witness :
    sameSet (currentSelectedNames sceneAB) ["o2", "o1"] = true ∧
      selection_timer ⟨sceneAB, ["o2", "o1"]⟩ = ⟨sceneAB, ["o2", "o1"]⟩ :=
  ⟨by decide, c7_timer_noop ⟨sceneAB, ["o2", "o1"]⟩ (by decide)⟩

/-! ### Timer visibility characterization (claim C6) -/

/-- String equality tests commute. -/
theorem string_beq_comm (a b : String) : (a == b) = (b == a) := by
  by_cases h : a = b
  · subst h; rfl
  · rw [beq_eq_false_iff_ne.mpr h, beq_eq_false_iff_ne.mpr (Ne.symm h)]

/-- A found object carries the looked-up name. -/
theorem findObj_some_name {s : Scene} {n : String} {o : Obj}
    (h : findObj s n = some o) : o.name = n := by
  rw [findObj] at h
  have hp := List.find?_some h
  exact eq_of_beq hp

/-- A found object is a scene object. -/
theorem findObj_some_mem {s : Scene} {n : String} {o : Obj}
    (h : findObj s n = some o) : o ∈ s.objects := by
  rw [findObj] at h
  exact List.mem_of_find?_eq_some h

/-- Failed lookups mean no scene object carries the name. -/
theorem findObj_eq_none_iff (s : Scene) (n : String) :
    findObj s n = none ↔ ∀ ob ∈ s.objects, ob.name ≠ n := by
  rw [findObj, List.find?_eq_none]
  simp

/-- `resolvable` is lookup success. -/
theorem resolvable_iff_findObj (s : Scene) (n : String) :
    resolvable s n ↔ findObj s n ≠ none := by
  constructor
  · rintro ⟨ob, hob, hn⟩ hnone
    exact (findObj_eq_none_iff s n).mp hnone ob hob hn
  · intro h
    cases hf : findObj s n with
    | none => exact absurd hf h
    | some o => exact ⟨o, findObj_some_mem hf, findObj_some_name hf⟩

/-- Membership in a `collectFold` comes from the accumulator or from a
guard-passing collection and its step. -/
theorem mem_collectFold_cases {step : Collection → List Collection}
    {cond : Collection → Bool} {x : Collection} :
    ∀ (cols init : List Collection), x ∈ collectFold step cond cols init →
      x ∈ init ∨ ∃ p ∈ cols, cond p = true ∧ x ∈ p :: step p := by
  intro cols
  induction cols with
  | nil => intro init h; exact Or.inl h
  | cons a rest ih =>
    intro init h
    rw [collectFold_cons] at h
    rcases ih _ h with h' | ⟨p, hp, hc, hx⟩
    · by_cases ha : cond a = true
      · rw [if_pos ha] at h'
        rcases List.mem_append.mp h' with h'' | h''
        · exact Or.inl h''
        · exact Or.inr ⟨a, List.mem_cons_self a rest, ha, h''⟩
      · rw [if_neg ha] at h'
        exact Or.inl h'
    · exact Or.inr ⟨p, List.mem_cons_of_mem a hp, hc, hx⟩

/-- The parent walk only returns collections of the scene. -/
theorem find_parent_collections_subset (cols : List Collection) :
    ∀ (fuel : Nat) (childName : String) (x : Collection),
      x ∈ find_parent_collections cols fuel childName → x ∈ cols := by
  intro fuel
  induction fuel with
  | zero =>
    intro n x h
    rw [find_parent_collections] at h
    exact absurd h (List.not_mem_nil x)
  | succ f ih =>
    intro n x h
    rw [find_parent_collections] at h
    rcases mem_collectFold_cases _ _ h with h' | ⟨p, hp, _, hx⟩
    · exact absurd h' (List.not_mem_nil x)
    · rcases List.mem_cons.mp hx with h'' | h''
      · exact h'' ▸ hp
      · exact ih _ _ h''

/-- The hierarchy only returns collections of the scene. -/
theorem hierarchyOf_subset {cols : List Collection} {objName : String} {x : Collection}
    (h : x ∈ hierarchyOf cols objName) : x ∈ cols := by
  rw [hierarchyOf] at h
  rcases mem_collectFold_cases _ _ h with h' | ⟨p, hp, _, hx⟩
  · exact absurd h' (List.not_mem_nil x)
  · rw [usersCollectionsOf] at hp
    have hpc : p ∈ cols := List.mem_of_mem_filter hp
    rcases List.mem_cons.mp hx with h'' | h''
    · exact h'' ▸ hpc
    · exact find_parent_collections_subset cols _ _ _ h''

/-- Splitting `hierHit` over a cons cell. -/
theorem hierHit_cons (s : Scene) (c : Collection) (rest : List Collection) (x : String) :
    hierHit s (c :: rest) x ↔
      (c.ez_pivot = some x ∧ resolvable s x) ∨ hierHit s rest x := by
  rw [hierHit, hierHit]
  exact List.exists_mem_cons_iff _ _ _

/-- The empty hierarchy hits nothing. -/
theorem hierHit_nil (s : Scene) (x : String) : ¬ hierHit s [] x := by
  rintro ⟨c, hc, _⟩
  exact List.not_mem_nil c hc

/-- Splitting `namesHit` over a cons cell. -/
theorem namesHit_cons (s : Scene) (n : String) (rest : List String) (x : String) :
    namesHit s (n :: rest) x ↔
      (resolvable s n ∧ hierHit s (hierarchyOf s.collections n) x) ∨
        namesHit s rest x := by
  rw [namesHit, namesHit]
  exact List.exists_mem_cons_iff _ _ _

/-- The empty name list hits nothing. -/
theorem namesHit_nil (s : Scene) (x : String) : ¬ namesHit s [] x := by
  rintro ⟨n, hn, _⟩
  exact List.not_mem_nil n hn

/-- `revealFlag` preserves object names. -/
theorem revealFlag_name (R : String → Bool) (o : Obj) : (revealFlag R o).name = o.name := by
  rw [revealFlag]
  split <;> rfl

/-- One step of `hide_all_pivots` as a map over the object list: hide
every object named by the collection's (resolvable) pivot tag. -/
theorem hidePivotStep_eq (s : Scene) (c : Collection) :
    hidePivotStep s c =
      { s with objects := s.objects.map (fun o =>
          if c.ez_pivot == some o.name then { o with hide_viewport := true } else o) } := by
  cases hcp : c.ez_pivot with
  | none =>
    have hpt : ∀ o ∈ s.objects,
        (if ((none : Option String) == some o.name : Bool) then
          { o with hide_viewport := true } else o) = o := by
      intro o _
      rfl
    simp only [hidePivotStep, hcp]
    rw [List.map_congr_left hpt, List.map_id']
  | some tg =>
    cases hf : findObj s tg with
    | none =>
      have hnone : ∀ ob ∈ s.objects, ¬(ob.name == tg) = true := by
        rw [findObj] at hf
        exact fun ob hob => by simpa using List.find?_eq_none.mp hf ob hob
      have hpt : ∀ o ∈ s.objects,
          (if (some tg == some o.name : Bool) then
            { o with hide_viewport := true } else o) = o := by
        intro o ho
        rw [if_neg]
        intro hbeq
        have heq : tg = o.name := by simpa using hbeq
        exact hnone o ho (by rw [heq]; simp)
      simp only [hidePivotStep, hcp, hf]
      rw [List.map_congr_left hpt, List.map_id']
    | some pv =>
      simp only [hidePivotStep, hcp, hf, updateObjs]
      refine congrArg (fun l => { s with objects := l }) ?_
      apply List.map_congr_left
      intro o _
      by_cases h : o.name = tg
      · rw [if_pos (by rw [h]; simp), if_pos (by rw [h]; simp)]
      · rw [if_neg (fun hb => h (by simpa using hb)),
          if_neg (fun hb => h (Eq.symm (by simpa using hb)))]

/-- Object-list projection of `hidePivotStep_eq`. -/
theorem hidePivotStep_objects (s : Scene) (c : Collection) :
    (hidePivotStep s c).objects = s.objects.map (fun o =>
      if c.ez_pivot == some o.name then { o with hide_viewport := true } else o) := by
  rw [hidePivotStep_eq]

/-- `hidePivotStep` keeps the collection list. -/
theorem hidePivotStep_collections (s : Scene) (c : Collection) :
    (hidePivotStep s c).collections = s.collections := by
  rw [hidePivotStep_eq]

/-- The iterated hide keeps the collection list. -/
theorem hideAllAux_collections : ∀ (cols : List Collection) (s : Scene),
    (hideAllPivotsAux cols s).collections = s.collections := by
  intro cols
  induction cols with
  | nil => intro s; rw [hideAllPivotsAux]
  | cons c rest ih =>
    intro s
    rw [hideAllPivotsAux, ih, hidePivotStep_collections]

/-- The iterated hide as one map over the object list: hide exactly the
objects named by some listed collection's pivot tag. -/
theorem hideAllAux_objects : ∀ (cols : List Collection) (s : Scene),
    (hideAllPivotsAux cols s).objects = s.objects.map (fun o =>
      if cols.any (fun c => c.ez_pivot == some o.name) then
        { o with hide_viewport := true } else o) := by
  intro cols
  induction cols with
  | nil =>
    intro s
    rw [hideAllPivotsAux]
    have hpt : ∀ o ∈ s.objects,
        (if ([] : List Collection).any (fun c => c.ez_pivot == some o.name) then
          { o with hide_viewport := true } else o) = o := by
      intro o _
      rfl
    rw [List.map_congr_left hpt, List.map_id']
  | cons c rest ih =>
    intro s
    rw [hideAllPivotsAux, ih, hidePivotStep_objects, List.map_map]
    apply List.map_congr_left
    intro o _
    by_cases h1 : (c.ez_pivot == some o.name) = true <;>
      by_cases h2 : rest.any (fun c => c.ez_pivot == some o.name) = true <;>
        simp [Function.comp, List.any_cons, h1, h2]

/-- `hide_all_pivots` keeps the collection list. -/
theorem hide_all_collections (s : Scene) :
    (hide_all_pivots s).collections = s.collections := by
  rw [hide_all_pivots]
  exact hideAllAux_collections s.collections s

/-- `hide_all_pivots` as one map over the object list. -/
theorem hide_all_objects (s : Scene) :
    (hide_all_pivots s).objects = s.objects.map (fun o =>
      if s.collections.any (fun c => c.ez_pivot == some o.name) then
        { o with hide_viewport := true } else o) := by
  rw [hide_all_pivots]
  exact hideAllAux_objects s.collections s

/-- Lookups through a name-preserving object map. -/
theorem findObj_map_namepres (s t : Scene) (f : Obj → Obj)
    (hf : ∀ o, (f o).name = o.name)
    (h : t.objects = s.objects.map f) (n : String) :
    findObj t n = (findObj s n).map f := by
  rw [findObj, findObj, h, List.find?_map]
  have hpred : ((fun o : Obj => o.name == n) ∘ f) = (fun o : Obj => o.name == n) := by
    funext o
    simp [Function.comp, hf]
  rw [hpred]

/-- Resolvability through a name-preserving object map. -/
theorem resolvable_map (s t : Scene) (f : Obj → Obj)
    (hf : ∀ o, (f o).name = o.name)
    (h : t.objects = s.objects.map f) (n : String) :
    resolvable t n ↔ resolvable s n := by
  unfold resolvable
  rw [h]
  constructor
  · rintro ⟨ob, hob, hn⟩
    obtain ⟨o, ho, rfl⟩ := List.mem_map.mp hob
    exact ⟨o, ho, by rw [← hf o]; exact hn⟩
  · rintro ⟨o, ho, hn⟩
    exact ⟨f o, List.mem_map_of_mem f ho, by rw [hf, hn]⟩

/-- Unfolding one collection of the inner reveal loop. -/
theorem showHierarchy_cons (c : Collection) (rest : List Collection)
    (acc : Scene × List String) :
    showPivotsForHierarchy (c :: rest) acc =
      showPivotsForHierarchy rest (showHierStep acc c) := by
  rw [showPivotsForHierarchy, showPivotsForHierarchy, List.foldl_cons]

/-- Unfolding one name of the outer reveal loop. -/
theorem showNames_cons (n : String) (rest : List String) (acc : Scene × List String) :
    showPivotsForNames (n :: rest) acc =
      showPivotsForNames rest (showNamesStep acc n) := by
  rw [showPivotsForNames, showPivotsForNames, List.foldl_cons]

/-- Specification of the inner reveal loop: given that the running scene
is the base with a reveal set applied and the shown set only records
collections whose pivot is already revealed, the loop extends the
reveal set by exactly the resolvable pivot tags of the hierarchy. -/
theorem showHierarchy_spec (base : Scene)
    (hnodup : (base.collections.map (fun c => c.name)).Nodup) :
    ∀ (hier : List Collection), (∀ c ∈ hier, c ∈ base.collections) →
    ∀ (P : String → Prop) (R : String → Bool) (acc : Scene × List String),
      acc.1.collections = base.collections →
      acc.1.objects = base.objects.map (revealFlag R) →
      (∀ x, R x = true ↔ P x) →
      (∀ cn ∈ acc.2, ∀ c ∈ base.collections, c.name = cn →
        ∃ tg, c.ez_pivot = some tg ∧ R tg = true) →
      ∃ R' : String → Bool,
        (showPivotsForHierarchy hier acc).1.collections = base.collections ∧
        (showPivotsForHierarchy hier acc).1.objects = base.objects.map (revealFlag R') ∧
        (∀ x, R x = true → R' x = true) ∧
        (∀ x, R' x = true ↔ (P x ∨ hierHit base hier x)) ∧
        (∀ cn ∈ (showPivotsForHierarchy hier acc).2, ∀ c ∈ base.collections,
          c.name = cn → ∃ tg, c.ez_pivot = some tg ∧ R' tg = true) := by
  intro hier
  induction hier with
  | nil =>
    intro _ P R acc h1 h2 h3 h4
    rw [showPivotsForHierarchy, List.foldl_nil]
    refine ⟨R, h1, h2, fun x h => h, ?_, h4⟩
    intro x
    rw [h3 x]
    constructor
    · exact Or.inl
    · rintro (h | h)
      · exact h
      · exact absurd h (hierHit_nil base x)
  | cons c rest ih =>
    intro hsub P R acc h1 h2 h3 h4
    rw [showHierarchy_cons]
    have hcb : c ∈ base.collections := hsub c (List.mem_cons_self c rest)
    have hsub' : ∀ c' ∈ rest, c' ∈ base.collections :=
      fun c' hc' => hsub c' (List.mem_cons_of_mem c hc')
    by_cases hS : acc.2.contains c.name = true
    · have hstep : showHierStep acc c = acc := by
        rw [showHierStep, if_pos hS]
      rw [hstep]
      have h3' : ∀ x, R x = true ↔
          (P x ∨ (c.ez_pivot = some x ∧ resolvable base x)) := by
        intro x
        constructor
        · intro h
          exact Or.inl ((h3 x).mp h)
        · rintro (h | ⟨hpiv, _⟩)
          · exact (h3 x).mpr h
          · have hmemS : c.name ∈ acc.2 := by simpa using hS
            obtain ⟨tg, htg, hR⟩ := h4 c.name hmemS c hcb rfl
            have hx : tg = x := Option.some.inj (htg.symm.trans hpiv)
            exact hx ▸ hR
      obtain ⟨R', a1, a2, a3, a4, a5⟩ := ih hsub'
        (fun x => P x ∨ (c.ez_pivot = some x ∧ resolvable base x)) R acc h1 h2 h3' h4
      refine ⟨R', a1, a2, a3, ?_, a5⟩
      intro x
      rw [a4 x, hierHit_cons]
      tauto
    · cases hpv : get_collection_pivot acc.1 c with
      | none =>
        have hstep : showHierStep acc c = acc := by
          rw [showHierStep, if_neg hS, hpv]
        rw [hstep]
        have hcnone : ∀ x, ¬(c.ez_pivot = some x ∧ resolvable base x) := by
          rintro x ⟨hpiv, hres⟩
          simp only [get_collection_pivot, hpiv] at hpv
          have hres1 : resolvable acc.1 x :=
            (resolvable_map base acc.1 (revealFlag R) (revealFlag_name R) h2 x).mpr hres
          exact (resolvable_iff_findObj acc.1 x).mp hres1 hpv
        have h3' : ∀ x, R x = true ↔
            (P x ∨ (c.ez_pivot = some x ∧ resolvable base x)) := by
          intro x
          rw [h3 x]
          constructor
          · exact Or.inl
          · rintro (h | h)
            · exact h
            · exact absurd h (hcnone x)
        obtain ⟨R', a1, a2, a3, a4, a5⟩ := ih hsub'
          (fun x => P x ∨ (c.ez_pivot = some x ∧ resolvable base x)) R acc h1 h2 h3' h4
        refine ⟨R', a1, a2, a3, ?_, a5⟩
        intro x
        rw [a4 x, hierHit_cons]
        tauto
      | some pv =>
        obtain ⟨tg, hcp, hf⟩ : ∃ tg, c.ez_pivot = some tg ∧ findObj acc.1 tg = some pv := by
          cases hcp : c.ez_pivot with
          | none => simp [get_collection_pivot, hcp] at hpv
          | some tg =>
            refine ⟨tg, rfl, ?_⟩
            simpa [get_collection_pivot, hcp] using hpv
        have hpvn : pv.name = tg := findObj_some_name hf
        have hstep : showHierStep acc c =
            (updateObjs acc.1 tg (fun o => { o with hide_viewport := false }),
              acc.2 ++ [c.name]) := by
          have hSm : c.name ∉ acc.2 := by simpa using hS
          simp [showHierStep, hSm, hpv, hpvn]
        rw [hstep]
        have hobj1 : (updateObjs acc.1 tg
              (fun o => { o with hide_viewport := false })).objects =
            base.objects.map (revealFlag (fun x => R x || (x == tg))) := by
          show acc.1.objects.map
            (fun o => if o.name == tg then { o with hide_viewport := false } else o) = _
          rw [h2, List.map_map]
          apply List.map_congr_left
          intro o _
          by_cases hR : R o.name = true <;> by_cases htg : (o.name == tg) = true <;>
            simp [Function.comp, revealFlag, hR, htg]
        have hcol1 : (updateObjs acc.1 tg
              (fun o => { o with hide_viewport := false })).collections =
            base.collections := h1
        have h31 : ∀ x, (fun x => R x || (x == tg)) x = true ↔
            (P x ∨ (c.ez_pivot = some x ∧ resolvable base x)) := by
          intro x
          constructor
          · intro h
            rcases (Bool.or_eq_true _ _).mp h with h | h
            · exact Or.inl ((h3 x).mp h)
            · have hx : x = tg := eq_of_beq h
              subst hx
              refine Or.inr ⟨hcp, ?_⟩
              have hres1 : resolvable acc.1 x := by
                rw [resolvable_iff_findObj, hf]
                simp
              exact (resolvable_map base acc.1 (revealFlag R)
                (revealFlag_name R) h2 x).mp hres1
          · rintro (h | ⟨hpiv, _⟩)
            · exact (Bool.or_eq_true _ _).mpr (Or.inl ((h3 x).mpr h))
            · have hx : tg = x := Option.some.inj (hcp.symm.trans hpiv)
              subst hx
              exact (Bool.or_eq_true _ _).mpr (Or.inr (by simp))
        have h41 : ∀ cn ∈ acc.2 ++ [c.name], ∀ c' ∈ base.collections, c'.name = cn →
            ∃ tg', c'.ez_pivot = some tg' ∧ (fun x => R x || (x == tg)) tg' = true := by
          intro cn hmem c' hc' hname
          rcases List.mem_append.mp hmem with h | h
          · obtain ⟨tg', htg', hR'⟩ := h4 cn h c' hc' hname
            exact ⟨tg', htg', by simp [hR']⟩
          · have hcn : cn = c.name := by simpa using h
            subst hcn
            have hcc : c' = c := List.inj_on_of_nodup_map hnodup hc' hcb hname
            subst hcc
            exact ⟨tg, hcp, by simp⟩
        obtain ⟨R', a1, a2, a3, a4, a5⟩ := ih hsub'
          (fun x => P x ∨ (c.ez_pivot = some x ∧ resolvable base x))
          (fun x => R x || (x == tg))
          (updateObjs acc.1 tg (fun o => { o with hide_viewport := false }),
            acc.2 ++ [c.name])
          hcol1 hobj1 h31 h41
        refine ⟨R', a1, a2, ?_, ?_, a5⟩
        · intro x hx
          exact a3 x (by simp [hx])
        · intro x
          rw [a4 x, hierHit_cons]
          tauto

/-- Specification of the outer reveal loop: the reveal set grows by
exactly the resolvable pivot tags in the hierarchies of the resolvable
processed names. -/
theorem showNames_spec (base : Scene)
    (hnodup : (base.collections.map (fun c => c.name)).Nodup) :
    ∀ (names : List String) (P : String → Prop) (R : String → Bool)
      (acc : Scene × List String),
      acc.1.collections = base.collections →
      acc.1.objects = base.objects.map (revealFlag R) →
      (∀ x, R x = true ↔ P x) →
      (∀ cn ∈ acc.2, ∀ c ∈ base.collections, c.name = cn →
        ∃ tg, c.ez_pivot = some tg ∧ R tg = true) →
      ∃ R' : String → Bool,
        (showPivotsForNames names acc).1.collections = base.collections ∧
        (showPivotsForNames names acc).1.objects = base.objects.map (revealFlag R') ∧
        (∀ x, R x = true → R' x = true) ∧
        (∀ x, R' x = true ↔ (P x ∨ namesHit base names x)) ∧
        (∀ cn ∈ (showPivotsForNames names acc).2, ∀ c ∈ base.collections,
          c.name = cn → ∃ tg, c.ez_pivot = some tg ∧ R' tg = true) := by
  intro names
  induction names with
  | nil =>
    intro P R acc h1 h2 h3 h4
    rw [showPivotsForNames, List.foldl_nil]
    refine ⟨R, h1, h2, fun x h => h, ?_, h4⟩
    intro x
    rw [h3 x]
    constructor
    · exact Or.inl
    · rintro (h | h)
      · exact h
      · exact absurd h (namesHit_nil base x)
  | cons n rest ih =>
    intro P R acc h1 h2 h3 h4
    rw [showNames_cons]
    cases hf : findObj acc.1 n with
    | none =>
      have hstep : showNamesStep acc n = acc := by
        rw [showNamesStep, hf]
      rw [hstep]
      have hnres : ¬ resolvable base n := by
        intro hres
        have hres1 : resolvable acc.1 n :=
          (resolvable_map base acc.1 (revealFlag R) (revealFlag_name R) h2 n).mpr hres
        exact (resolvable_iff_findObj acc.1 n).mp hres1 hf
      have h3' : ∀ x, R x = true ↔
          (P x ∨ (resolvable base n ∧
            hierHit base (hierarchyOf base.collections n) x)) := by
        intro x
        rw [h3 x]
        constructor
        · exact Or.inl
        · rintro (h | ⟨hres, _⟩)
          · exact h
          · exact absurd hres hnres
      obtain ⟨R', a1, a2, a3, a4, a5⟩ := ih
        (fun x => P x ∨ (resolvable base n ∧
          hierHit base (hierarchyOf base.collections n) x)) R acc h1 h2 h3' h4
      refine ⟨R', a1, a2, a3, ?_, a5⟩
      intro x
      rw [a4 x, namesHit_cons]
      tauto
    | some o =>
      have honame : o.name = n := findObj_some_name hf
      have hstep : showNamesStep acc n =
          showPivotsForHierarchy (hierarchyOf base.collections n) acc := by
        simp only [showNamesStep, hf, get_collection_hierarchy, honame, h1]
      rw [hstep]
      have hhsub : ∀ c ∈ hierarchyOf base.collections n, c ∈ base.collections :=
        fun c hc => hierarchyOf_subset hc
      obtain ⟨R1, b1, b2, b3, b4, b5⟩ := showHierarchy_spec base hnodup
        (hierarchyOf base.collections n) hhsub P R acc h1 h2 h3 h4
      obtain ⟨R', a1, a2, a3, a4, a5⟩ := ih
        (fun x => P x ∨ hierHit base (hierarchyOf base.collections n) x) R1
        (showPivotsForHierarchy (hierarchyOf base.collections n) acc) b1 b2 b4 b5
      refine ⟨R', a1, a2, fun x hx => a3 x (b3 x hx), ?_, a5⟩
      intro x
      rw [a4 x, namesHit_cons]
      have hres : resolvable base n := by
        have hres1 : resolvable acc.1 n := by
          rw [resolvable_iff_findObj, hf]
          simp
        exact (resolvable_map base acc.1 (revealFlag R)
          (revealFlag_name R) h2 n).mp hres1
      constructor
      · rintro ((h | h) | h)
        · exact Or.inl h
        · exact Or.inr (Or.inl ⟨hres, h⟩)
        · exact Or.inr (Or.inr h)
      · rintro (h | ⟨_, h⟩ | h)
        · exact Or.inl (Or.inl h)
        · exact Or.inl (Or.inr h)
        · exact Or.inr h

/-- Claim C6: after a timer run that observes a changed selection, a
pivot-tagged object is visible in the viewport exactly when some
currently selected object has a hierarchy collection tagged with it; in
particular an empty new selection hides every pivot. -/
theorem c6_timer_visible_pivots (ts : TimerState)
    (hch : sameSet (currentSelectedNames ts.scene) ts.lastSelected = false)
    (hnodup : (ts.scene.collections.map (fun c => c.name)).Nodup) :
    ∀ o ∈ (selection_timer ts).scene.objects, o.name ∈ tagList ts.scene →
      (o.hide_viewport = false ↔
        ∃ n ∈ currentSelectedNames ts.scene,
          ∃ c ∈ get_collection_hierarchy ts.scene n, c.ez_pivot = some o.name) := by
  intro o ho htag
  have hif : ¬(sameSet (currentSelectedNames ts.scene) ts.lastSelected = true) := by
    rw [hch]
    exact Bool.false_ne_true
  by_cases hemp : (currentSelectedNames ts.scene).isEmpty = true
  · -- empty new selection: everything pivot-tagged is hidden
    have hsel : currentSelectedNames ts.scene = [] := List.isEmpty_iff.mp hemp
    have htimer : selection_timer ts =
        { scene := hide_all_pivots ts.scene,
          lastSelected := currentSelectedNames ts.scene } := by
      simp only [selection_timer]
      rw [if_neg hif, if_pos hemp]
    rw [htimer] at ho
    have ho' : o ∈ (hide_all_pivots ts.scene).objects := ho
    rw [hide_all_objects] at ho'
    obtain ⟨ob, hob, rfl⟩ := List.mem_map.mp ho'
    by_cases hg : ts.scene.collections.any (fun c => c.ez_pivot == some ob.name) = true
    · rw [if_pos hg]
      simp [hsel]
    · exfalso
      rw [if_neg hg] at htag
      rw [tagList] at htag
      obtain ⟨c, hc, hcp⟩ := List.mem_filterMap.mp htag
      exact hg (List.any_eq_true.mpr ⟨c, hc, by rw [hcp]; simp⟩)
  · -- changed non-empty selection: hide all, then reveal the hits
    have htimer : selection_timer ts =
        { scene := (showPivotsForNames (currentSelectedNames ts.scene)
            (hide_all_pivots ts.scene, [])).1,
          lastSelected := currentSelectedNames ts.scene } := by
      simp only [selection_timer]
      rw [if_neg hif, if_neg hemp]
    rw [htimer] at ho
    have ho' : o ∈ (showPivotsForNames (currentSelectedNames ts.scene)
        (hide_all_pivots ts.scene, [])).1.objects := ho
    have hnodup1 : ((hide_all_pivots ts.scene).collections.map
        (fun c => c.name)).Nodup := by
      rw [hide_all_collections]
      exact hnodup
    have hR0 : (hide_all_pivots ts.scene).objects =
        (hide_all_pivots ts.scene).objects.map (revealFlag (fun _ => false)) := by
      have hpt : ∀ ob ∈ (hide_all_pivots ts.scene).objects,
          revealFlag (fun _ => false) ob = ob := by
        intro ob _
        rw [revealFlag]
        exact if_neg (by simp)
      rw [List.map_congr_left hpt, List.map_id']
  -- specification of the reveal phase over the post-hide scene
    obtain ⟨R', a1, a2, a3, a4, a5⟩ := showNames_spec (hide_all_pivots ts.scene) hnodup1
      (currentSelectedNames ts.scene) (fun _ => False) (fun _ => false)
      (hide_all_pivots ts.scene, []) rfl hR0 (by simp)
      (by intro cn h; exact absurd h (List.not_mem_nil cn))
    rw [a2] at ho'
    obtain ⟨ob1, hob1, rfl⟩ := List.mem_map.mp ho'
    have hob1' : ob1 ∈ ts.scene.objects.map (fun o =>
        if ts.scene.collections.any (fun c => c.ez_pivot == some o.name) then
          { o with hide_viewport := true } else o) := by
      rw [← hide_all_objects]
      exact hob1
    obtain ⟨ob, hob, heq⟩ := List.mem_map.mp hob1'
    have hname1 : ob1.name = ob.name := by
      rw [← heq]
      split <;> rfl
    rw [revealFlag_name, hname1] at htag
    rw [tagList] at htag
    have hhit : ts.scene.collections.any (fun c => c.ez_pivot == some ob.name) = true := by
      obtain ⟨c, hc, hcp⟩ := List.mem_filterMap.mp htag
      exact List.any_eq_true.mpr ⟨c, hc, by rw [hcp]; simp⟩
    have hvis1 : ob1.hide_viewport = true := by
      rw [← heq]
      rw [if_pos hhit]
    have hLHS : (revealFlag R' ob1).hide_viewport = false ↔ R' ob1.name = true := by
      rw [revealFlag]
      by_cases hR' : R' ob1.name = true
      · rw [if_pos hR']
        simp [hR']
      · rw [if_neg hR', hvis1]
        simp [hR']
    have hresx : resolvable ts.scene ob.name := ⟨ob, hob, rfl⟩
    have hres1 : ∀ m, resolvable (hide_all_pivots ts.scene) m ↔ resolvable ts.scene m := by
      intro m
      refine resolvable_map ts.scene (hide_all_pivots ts.scene) _ ?_
        (hide_all_objects ts.scene) m
      intro o'
      dsimp only
      split <;> rfl
    have hselres : ∀ n ∈ currentSelectedNames ts.scene, resolvable ts.scene n := by
      intro n hn
      rw [currentSelectedNames] at hn
      obtain ⟨o', ho'', rfl⟩ := List.mem_map.mp hn
      rw [selectedObjects] at ho''
      obtain ⟨k, _, hfk⟩ := List.mem_filterMap.mp ho''
      exact ⟨o', findObj_some_mem hfk, rfl⟩
    have hcols1 : (hide_all_pivots ts.scene).collections = ts.scene.collections :=
      hide_all_collections ts.scene
    have hbridge : namesHit (hide_all_pivots ts.scene)
        (currentSelectedNames ts.scene) ob.name ↔
        ∃ n ∈ currentSelectedNames ts.scene,
          ∃ c ∈ get_collection_hierarchy ts.scene n, c.ez_pivot = some ob.name := by
      unfold namesHit hierHit
      constructor
      · rintro ⟨n, hn, -, c, hc, hcp, -⟩
        refine ⟨n, hn, c, ?_, hcp⟩
        rw [get_collection_hierarchy]
        rw [hcols1] at hc
        exact hc
      · rintro ⟨n, hn, c, hc, hcp⟩
        refine ⟨n, hn, (hres1 n).mpr (hselres n hn), c, ?_, hcp,
          (hres1 ob.name).mpr hresx⟩
        rw [hcols1]
        rw [get_collection_hierarchy] at hc
        exact hc
    rw [revealFlag_name, hname1, hLHS, hname1, a4 ob.name, false_or]
    exact hbridge

/-- Witness for claim C6 at `sceneAB` with an empty previous record:
the timer reveals exactly the pivots of the selected objects'
hierarchies (here `pA`; the dangling tag `ghostB` reveals nothing). -/
theorem c6_timer_visible_pivots_witness :
    sameSet (currentSelectedNames sceneAB) ([] : List String) = false ∧
      ∀ o ∈ (selection_timer ⟨sceneAB, []⟩).scene.objects, o.name ∈ tagList sceneAB →
        (o.hide_viewport = false ↔
          ∃ n ∈ currentSelectedNames sceneAB,
            ∃ c ∈ get_collection_hierarchy sceneAB n, c.ez_pivot = some o.name) :=
  ⟨by decide, c6_timer_visible_pivots ⟨sceneAB, []⟩ (by decide) (by decide)⟩

end EZ
